import Mathlib

/-!
# The mlang tree-walking evaluator

A shallow embedding of `src/ast.hh` and `src/ast.cc`: the value classes
(`unit_type`, `integer_type`, `string_type`), the scoped `context`, and the
`value` method of every AST node.

Conventions of the embedding.

* `int64_t` data is an `Int`; every `integer_type` built by an arithmetic
  operator is reduced with `wrap64` (two's complement, 64 bits).
* `std::string` data is a `String`; its comparison is lexicographic on the
  characters (on UTF-8 text the byte order used by the C++ library is the order
  of the code points).
* `std::cout` and `std::cerr` are two strings that only grow.
* `__error` prints and calls `exit(1)`: an evaluation that reaches it ends in
  `Res.fatal`, carrying the message and the process state at that moment.
* Behaviour the C++ source leaves undefined (`front()` of an empty list, integer
  division by zero and the division `INT64_MIN / -1`, leaving
  `builtin_binop_kind_to_string` without a `return`) and an uncaught
  `std::bad_cast` end in `Res.undefined`.
* `until_statement::execute` may loop forever, so `value` takes a fuel argument
  and answers `Res.timeout` when the fuel is used up; `Evals` hides the fuel.
-/

namespace mlang

/-! ## Values -/

/-- The enum `type_kind`. -/
inductive type_kind where
  | UNIT
  | INTEGER
  | STRING
  deriving DecidableEq, Repr

/-- The function `type_kind_to_string`. -/
def type_kind_to_string : type_kind → String
  | .UNIT => "unit"
  | .INTEGER => "integer"
  | .STRING => "string"

/-- The class `type` with its three subclasses. A value is immutable, so the
`const type *` held by the source is represented by the value itself. -/
inductive type where
  | unit_type
  | integer_type (data_ : Int)
  | string_type (data_ : String)
  deriving DecidableEq, Repr

/-- The constant `UNIT__`. -/
def UNIT__ : type := type.unit_type

/-- Lower bound of `int64_t`. -/
def INT64_MIN : Int := -9223372036854775808

/-- Upper bound of `int64_t`. -/
def INT64_MAX : Int := 9223372036854775807

/-- Membership in the range of `int64_t`. -/
def inInt64 (n : Int) : Prop := INT64_MIN ≤ n ∧ n ≤ INT64_MAX

instance (n : Int) : Decidable (inInt64 n) := by
  unfold inInt64; infer_instance

/-- Reduction of an exact integer result to the 64-bit two's complement value
that an `int64_t` holds. -/
def wrap64 (n : Int) : Int := (n + 9223372036854775808) % 18446744073709551616 - 9223372036854775808

/-- The method `kind()`. -/
def type.kind : type → type_kind
  | .unit_type => .UNIT
  | .integer_type _ => .INTEGER
  | .string_type _ => .STRING

/-- The method `repr()`: `"T"` for unit, `std::to_string` of the data for an
integer, the data itself for a string. -/
def type.repr : type → String
  | .unit_type => "T"
  | .integer_type d => toString d
  | .string_type d => d

/-- The expression `to_integer_type().data__()`: the `int64_t` held by the
`integer_type` that `to_integer_type` builds. -/
def type.to_integer_type : type → Int
  | .unit_type => 0
  | .integer_type d => d
  | .string_type d => if d ≠ "" then 1 else 0

/-- The enum `builtin_binop_kind`. -/
inductive builtin_binop_kind where
  | EQUAL
  | NOTEQUAL
  | GREATER
  | GREATEREQUAL
  | LESS
  | LESSEQUAL
  | PLUS
  | MINUS
  | MULTIPLY
  | DIVIDE
  deriving DecidableEq, Repr

/-- The function `builtin_binop_kind_to_string`. Its `switch` has six cases and
no `default`; for the four arithmetic kinds control leaves the function without
a `return`, which is `none` here. -/
def builtin_binop_kind_to_string : builtin_binop_kind → Option String
  | .EQUAL => some "equal"
  | .NOTEQUAL => some "not equal"
  | .GREATER => some "greater"
  | .GREATEREQUAL => some "reater or equal"
  | .LESS => some "less"
  | .LESSEQUAL => some "less or equal"
  | _ => none

/-- What one of the virtual operators of `type` does. -/
inductive op_result where
  | val (v : type)
  | error (msg : String)
  | undefined
  deriving DecidableEq, Repr

/-- Conversion of a C++ `bool` to the `int64_t` passed to `integer_type`. -/
def of_bool (b : Bool) : Int := if b then 1 else 0

/-- The ten operators of `integer_type` on two `int64_t` data. The division
has no defined result when the divisor is zero and when the quotient is not an
`int64_t`, which for two `int64_t` operands is `INT64_MIN / -1`. -/
def integer_type_operator (op : builtin_binop_kind) (a b : Int) : op_result :=
  match op with
  | .PLUS => .val (.integer_type (wrap64 (a + b)))
  | .MINUS => .val (.integer_type (wrap64 (a - b)))
  | .MULTIPLY => .val (.integer_type (wrap64 (a * b)))
  | .DIVIDE =>
    if b = 0 then .undefined
    else if a = INT64_MIN ∧ b = -1 then .undefined
    else .val (.integer_type (wrap64 (Int.tdiv a b)))
  | .GREATER => .val (.integer_type (of_bool (decide (a > b))))
  | .LESS => .val (.integer_type (of_bool (decide (a < b))))
  | .GREATEREQUAL => .val (.integer_type (of_bool (decide (a ≥ b))))
  | .LESSEQUAL => .val (.integer_type (of_bool (decide (a ≤ b))))
  | .EQUAL => .val (.integer_type (of_bool (decide (a = b))))
  | .NOTEQUAL => .val (.integer_type (of_bool (decide (a ≠ b))))

/-- The ten operators of `string_type` on two `std::string` data; comparison
of `std::string` is lexicographic on the characters. -/
def string_type_operator (op : builtin_binop_kind) (a b : String) : op_result :=
  match op with
  | .PLUS => .val (.string_type (a ++ b))
  | .MINUS => .error "Unsupported operation for string type"
  | .MULTIPLY => .error "Unsupported operation for string type"
  | .DIVIDE => .error "Unsupported operation for string type"
  | .GREATER => .val (.integer_type (of_bool (decide (b.data < a.data))))
  | .LESS => .val (.integer_type (of_bool (decide (a.data < b.data))))
  | .GREATEREQUAL => .val (.integer_type (of_bool (decide (¬ a.data < b.data))))
  | .LESSEQUAL => .val (.integer_type (of_bool (decide (¬ b.data < a.data))))
  | .EQUAL => .val (.integer_type (of_bool (decide (a = b))))
  | .NOTEQUAL => .val (.integer_type (of_bool (decide (a ≠ b))))

/-- The virtual call `*fst_value op *snd_value`: the receiver selects the
class; where the operator body casts the other operand with `dynamic_cast`, an
operand of another class throws `std::bad_cast`, which nothing catches. -/
def type.operator (op : builtin_binop_kind) (fst_value snd_value : type) : op_result :=
  match fst_value with
  | .unit_type => .error "Unsupported operation for unit type"
  | .integer_type a =>
    match snd_value with
    | .integer_type b => integer_type_operator op a b
    | _ => .undefined
  | .string_type a =>
    match snd_value with
    | .string_type b => string_type_operator op a b
    | _ =>
      match op with
      | .MINUS => .error "Unsupported operation for string type"
      | .MULTIPLY => .error "Unsupported operation for string type"
      | .DIVIDE => .error "Unsupported operation for string type"
      | _ => .undefined

/-! ## The context -/

/-- One scope: a `std::unordered_map<std::string, const type *>`, kept as an
association list with at most one entry per key. -/
abbrev Frame := List (String × type)

/-- The lookup `scope.find(name)`. -/
def Frame.find : Frame → String → Option type
  | [], _ => none
  | (k, v) :: rest, name => if k = name then some v else Frame.find rest name

/-- The call `scope.count(name)`. -/
def Frame.count (scope : Frame) (name : String) : Nat :=
  match scope.find name with
  | some _ => 1
  | none => 0

/-- The statement `scope[name] = value`. -/
def Frame.assign : Frame → String → type → Frame
  | [], name, value => [(name, value)]
  | (k, v) :: rest, name, value =>
    if k = name then (k, value) :: rest else (k, v) :: Frame.assign rest name value

/-- The class `context`: the list `variables_`, innermost scope first. -/
structure context where
  variables_ : List Frame
  deriving DecidableEq, Repr

/-- The constructor `context()`: `variables_(0)` builds a list of zero scopes. -/
def context.init : context := ⟨[]⟩

/-- The method `set_global_variable`; `back()` of an empty list is undefined. -/
def context.set_global_variable (ctx : context) (name : String) (value : type) :
    Option context :=
  match ctx.variables_.reverse with
  | [] => none
  | last :: revinit => some ⟨(last.assign name value :: revinit).reverse⟩

/-- The method `set_local_variable`; `front()` of an empty list is undefined. -/
def context.set_local_variable (ctx : context) (name : String) (value : type) :
    Option context :=
  match ctx.variables_ with
  | [] => none
  | scope :: rest => some ⟨scope.assign name value :: rest⟩

/-- The loop of `assign_to_variable` over a list of scopes. -/
def assign_scopes : List Frame → String → type → List Frame
  | [], _, _ => []
  | scope :: rest, name, value =>
    (if scope.count name ≠ 0 then scope.assign name value else scope)
      :: assign_scopes rest name value

/-- The method `assign_to_variable`. -/
def context.assign_to_variable (ctx : context) (name : String) (value : type) : context :=
  ⟨assign_scopes ctx.variables_ name value⟩

/-- The loop of `get_variable` over a list of scopes. -/
def get_scopes : List Frame → String → Option type
  | [], _ => none
  | scope :: rest, name =>
    if scope.count name ≠ 0 then scope.find name else get_scopes rest name

/-- The method `get_variable`; `none` is the null pointer. -/
def context.get_variable (ctx : context) (name : String) : Option type :=
  get_scopes ctx.variables_ name

/-- The method `new_scope`. -/
def context.new_scope (ctx : context) : context := ⟨[] :: ctx.variables_⟩

/-- The method `pop_scope`; `pop_front()` of an empty list is undefined. -/
def context.pop_scope (ctx : context) : Option context :=
  match ctx.variables_ with
  | [] => none
  | _ :: rest => some ⟨rest⟩

/-! ## The process state and the result of an evaluation -/

/-- What an evaluation can observe and change: the context passed by reference
and the two output streams. -/
structure State where
  ctx : context
  cout : String
  cerr : String
  deriving DecidableEq, Repr

/-- The depth of the scope chain. -/
def State.depth (s : State) : Nat := s.ctx.variables_.length

/-- How a call of `expression::value` ends. -/
inductive Res where
  | ok (v : type) (s : State)
  | fatal (msg : String) (s : State)
  | undefined
  | timeout
  deriving DecidableEq, Repr

/-- Sequencing of two evaluation steps: the second runs only when the first
returned. -/
def Res.bind (r : Res) (k : type → State → Res) : Res :=
  match r with
  | .ok v s => k v s
  | .fatal msg s => .fatal msg s
  | .undefined => .undefined
  | .timeout => .timeout

/-- The function `__error`: the message goes to `std::cerr`, then `exit(1)`. -/
def __error (message : String) (s : State) : Res :=
  .fatal message { s with cerr := s.cerr ++ "Error: " ++ message ++ "\n" }

/-- The function `__warning`: the message goes to `std::cerr`. -/
def __warning (message : String) (s : State) : State :=
  { s with cerr := s.cerr ++ "Warning: " ++ message ++ "\n" }

/-! ## `std::stoi` -/

/-- The outcome of `std::stoi`: a value or one of its two exceptions. -/
inductive stoi_result where
  | value (n : Int)
  | invalid_argument
  | out_of_range
  deriving DecidableEq, Repr

/-- The C function `isspace` in the "C" locale. -/
def isspace (c : Char) : Bool :=
  c = ' ' || c = '\t' || c = '\n' || c = '\x0b' || c = '\x0c' || c = '\r'

/-- The C function `isdigit`. -/
def isdigit (c : Char) : Bool := '0' ≤ c && c ≤ '9'

/-- The exact value of a run of decimal digits. -/
def digits_value (ds : List Char) : Nat :=
  ds.foldl (fun acc c => acc * 10 + (c.toNat - '0'.toNat)) 0

/-- The subject sequence of `strtol` in base 10 after the white space: an
optional sign, then the longest run of digits. -/
def strtol_subject (cs : List Char) : Bool × List Char :=
  match cs with
  | '-' :: rest => (true, rest.takeWhile isdigit)
  | '+' :: rest => (false, rest.takeWhile isdigit)
  | _ => (false, cs.takeWhile isdigit)

/-- The library function `std::stoi(str)` as the C++ standard defines it:
`strtol(str.c_str(), &end, 10)` skips leading white space, reads an optional
sign and the longest run of decimal digits and ignores what follows;
`std::invalid_argument` when there is no digit to convert, `std::out_of_range`
when the value is not an `int` (32 bits). -/
def stoi (str : String) : stoi_result :=
  match strtol_subject (str.data.dropWhile isspace) with
  | (_, []) => .invalid_argument
  | (neg, d :: ds) =>
    let n : Int := if neg then - (digits_value (d :: ds) : Int) else (digits_value (d :: ds) : Int)
    if -2147483648 ≤ n ∧ n ≤ 2147483647 then .value n else .out_of_range

/-! ## AST nodes -/

/-- The class `expression` with its subclasses. A literal node is a `type`
object, which is itself an expression; `otherwise` of an `if_expression` may be
the null pointer. -/
inductive expression where
  | literal (v : type)
  | print_function (exprs : List expression)
  | function_call (name : String) (args : List expression)
  | tostr_function (arg : expression)
  | toint_function (arg : expression)
  | if_expression (cond then_ : expression) (otherwise : Option expression)
  | until_statement (cond body : expression)
  | var_decl (var_name : String) (expr : expression)
  | essignment_expression (var_name : String) (expr : expression)
  | variable (name : String)
  | expr_list (exprs : List expression)
  | builtin_binop_function (op : builtin_binop_kind) (fst snd : expression)

/-- The body of `builtin_binop_function::value` after both operands have been
evaluated. -/
def builtin_binop_dispatch (op : builtin_binop_kind) (fst_value snd_value : type)
    (s : State) : Res :=
  let kind := fst_value.kind
  if kind ≠ snd_value.kind then
    match builtin_binop_kind_to_string op with
    | none => .undefined
    | some opname =>
      __error ("Cannot performe " ++ opname ++ " operation on type " ++
        type_kind_to_string kind ++ " and type " ++ type_kind_to_string snd_value.kind) s
  else if kind = .UNIT ∨ fst_value.kind = .UNIT then
    match builtin_binop_kind_to_string op with
    | none => .undefined
    | some opname => __error ("Cannot performe " ++ opname ++ " operation on unit type") s
  else
    match type.operator op fst_value snd_value with
    | .val v => .ok v s
    | .error msg => __error msg s
    | .undefined => .undefined

/-- The body of `toint_function::value` after the argument has been
evaluated. -/
def toint_convert (value : type) (s : State) : Res :=
  match value with
  | .unit_type => .ok (.integer_type 0) s
  | .integer_type d => .ok (.integer_type d) s
  | .string_type _ =>
    match stoi value.repr with
    | .value n => .ok (.integer_type n) s
    | _ => __error "cannot conver str to type int" s

/-- The loop of `print_function::value`: each argument is evaluated and its
`repr()` written to `std::cout`. -/
def print_loop (ev : expression → State → Res) : List expression → State → Res
  | [], s => .ok UNIT__ s
  | expr :: rest, s =>
    (ev expr s).bind fun v s1 => print_loop ev rest { s1 with cout := s1.cout ++ v.repr }

/-- The loop of `expr_list::value`: each expression is evaluated in turn and
`last_expr_value` keeps the latest result. -/
def expr_list_loop (ev : expression → State → Res) :
    List expression → type → State → Res
  | [], last_expr_value, s => .ok last_expr_value s
  | e :: rest, _, s => (ev e s).bind fun v s1 => expr_list_loop ev rest v s1

/-- The virtual method `expression::value` of every node class. The first
argument bounds the depth of nested calls plus the number of loop iterations. -/
def value : Nat → expression → State → Res
  | 0, _, _ => .timeout
  | _ + 1, .literal v, s => .ok v s
  | fuel + 1, .print_function exprs, s =>
    (print_loop (value fuel) exprs s).bind fun _ s1 =>
      .ok UNIT__ { s1 with cout := s1.cout ++ "\n" }
  | _ + 1, .function_call _ _, s => .ok UNIT__ s
  | fuel + 1, .tostr_function arg, s =>
    (value fuel arg s).bind fun v s1 => .ok (.string_type v.repr) s1
  | fuel + 1, .toint_function arg, s =>
    (value fuel arg s).bind fun v s1 => toint_convert v s1
  | fuel + 1, .if_expression cond then_ otherwise, s =>
    (value fuel cond s).bind fun c s1 =>
      if c.to_integer_type > 0 then value fuel then_ s1
      else
        match otherwise with
        | some e => value fuel e s1
        | none => .ok UNIT__ s1
  | fuel + 1, .until_statement cond body, s =>
    (value fuel cond s).bind fun c s1 =>
      if c.to_integer_type > 0 then
        (value fuel body s1).bind fun _ s2 => value fuel (.until_statement cond body) s2
      else .ok UNIT__ s1
  | fuel + 1, .var_decl var_name expr, s =>
    (value fuel expr s).bind fun v s1 =>
      let s2 :=
        match s1.ctx.get_variable var_name with
        | some _ => __warning ("redeclaration of variable \"" ++ var_name ++ "\"") s1
        | none => s1
      match s2.ctx.set_local_variable var_name v with
      | none => .undefined
      | some ctx => .ok v { s2 with ctx := ctx }
  | fuel + 1, .essignment_expression var_name expr, s =>
    (value fuel expr s).bind fun v s1 =>
      match s1.ctx.get_variable var_name with
      | none => __error ("undefined symbol \"" ++ var_name ++ "\"") s1
      | some _ => .ok v { s1 with ctx := s1.ctx.assign_to_variable var_name v }
  | _ + 1, .variable name, s =>
    match s.ctx.get_variable name with
    | none => __error ("usage of undefined symbol \"" ++ name ++ "\"") s
    | some var => .ok var s
  | fuel + 1, .expr_list exprs, s =>
    (expr_list_loop (value fuel) exprs UNIT__ { s with ctx := s.ctx.new_scope }).bind
      fun last_expr_value s1 =>
        match s1.ctx.pop_scope with
        | none => .undefined
        | some ctx => .ok last_expr_value { s1 with ctx := ctx }
  | fuel + 1, .builtin_binop_function op fst snd, s =>
    (value fuel fst s).bind fun fst_value s1 =>
      (value fuel snd s1).bind fun snd_value s2 =>
        builtin_binop_dispatch op fst_value snd_value s2

/-- The evaluation of `e` from `s` ends with `r`: some amount of fuel is enough
for `value` to reach `r`. -/
def Evals (e : expression) (s : State) (r : Res) : Prop :=
  ∃ fuel, value fuel e s = r ∧ r ≠ .timeout

/-! ## Specification vocabulary -/

/-- The state on entry to a block: `new_scope` has pushed one empty scope. -/
def State.enter (s : State) : State := { s with ctx := s.ctx.new_scope }

/-- The state with the innermost scope removed, the streams untouched. -/
def State.leave (s : State) : State := { s with ctx := ⟨s.ctx.variables_.tail⟩ }

/-- The expressions `es` evaluate normally one after the other, in list order,
from state `s`: the results are `vs` (one per expression, in the same order)
and the last evaluation leaves state `s2`. -/
def SeqRuns : List expression → State → List type → State → Prop
  | [], s, vs, s2 => vs = [] ∧ s2 = s
  | e :: rest, s, vs, s2 =>
    ∃ v s1 vs1, Evals e s (.ok v s1) ∧ vs = v :: vs1 ∧ SeqRuns rest s1 vs1 s2

/-- The integer written by an optional sign and a run of decimal digits. -/
def signed_value (sign ds : List Char) : Int :=
  if sign = ['-'] then - (digits_value ds : Int) else (digits_value ds : Int)

/-- Membership in the range of a 32-bit `int`. -/
def inInt32 (n : Int) : Prop := -2147483648 ≤ n ∧ n ≤ 2147483647

instance (n : Int) : Decidable (inInt32 n) := by
  unfold inInt32; infer_instance

/-- The text `t` begins, after white space `ws`, with an optional sign and
the non-empty run of decimal digits `ds`, which `rest` does not continue. -/
def IntegerPrefix (t : String) (ws sign ds rest : List Char) : Prop :=
  t.data = ws ++ sign ++ ds ++ rest ∧ (∀ c ∈ ws, isspace c = true) ∧
    (sign = [] ∨ sign = ['+'] ∨ sign = ['-']) ∧ ds ≠ [] ∧ (∀ c ∈ ds, isdigit c = true) ∧
    (∀ c ∈ rest.head?, isdigit c = false)

/-- Lexicographic order of two character sequences, in the spec's words: the
first position where the sequences differ decides, by the order of the
characters there, and a sequence that ends first is the smaller one. -/
def lex_less : List Char → List Char → Bool
  | [], [] => false
  | [], _ :: _ => true
  | _ :: _, [] => false
  | a :: as, b :: bs => decide (a < b) || (decide (a = b) && lex_less as bs)

/-- The arguments `es` of an output node evaluate normally one after the
other, in list order, from state `s`, the `repr()` of each result being written
to `std::cout` right after its evaluation: the results are `vs` and the state
after the last write is `s2`. -/
def PrintRuns : List expression → State → List type → State → Prop
  | [], s, vs, s2 => vs = [] ∧ s2 = s
  | e :: rest, s, vs, s2 =>
    ∃ v s1 vs1, Evals e s (.ok v s1) ∧ vs = v :: vs1 ∧
      PrintRuns rest { s1 with cout := s1.cout ++ v.repr } vs1 s2

/-- The texts `repr()` of the values `vs`, one after the other with nothing in
between. -/
def renders : List type → String
  | [] => ""
  | v :: vs => v.repr ++ renders vs

/-- The text `o1 ++ repr(v1) ++ ... ++ ok ++ repr(vk)`: for each argument of an
output node, what the argument wrote itself, then the `repr()` of its value. -/
def interleaved : List String → List type → String
  | out :: outs, v :: vs => out ++ v.repr ++ interleaved outs vs
  | _, _ => ""

/-- The run `PrintRuns` of the arguments of an output node, together with what
each argument wrote itself: `outs` holds, per argument and in list order, the
text that the evaluation of that argument appended to `std::cout`. -/
def PrintTrace : List expression → State → List type → List String → State → Prop
  | [], s, vs, outs, s2 => vs = [] ∧ outs = [] ∧ s2 = s
  | e :: rest, s, vs, outs, s2 =>
    ∃ v s1 out vs1 outs1, Evals e s (.ok v s1) ∧ s1.cout = s.cout ++ out ∧
      vs = v :: vs1 ∧ outs = out :: outs1 ∧
      PrintTrace rest { s1 with cout := s1.cout ++ v.repr } vs1 outs1 s2

/-- Two scopes bind exactly the same names. -/
def SameNames (f g : Frame) : Prop :=
  ∀ name : String, Frame.find f name = none ↔ Frame.find g name = none

/-- What one evaluation may do to the names of a scope chain: the innermost
scope keeps the names it had and may gain some (declarations write there),
every other scope binds exactly the same names as before. -/
def NamesKept : List Frame → List Frame → Prop
  | [], [] => True
  | top :: rest, top2 :: rest2 =>
    (∀ name : String, Frame.find top name ≠ none → Frame.find top2 name ≠ none) ∧
      List.Forall₂ SameNames rest rest2
  | _, _ => False

mutual
/-- The tree `e` contains an `until_statement` node. -/
def has_until : expression → Bool
  | .literal _ => false
  | .print_function exprs => has_until_list exprs
  | .function_call _ args => has_until_list args
  | .tostr_function arg => has_until arg
  | .toint_function arg => has_until arg
  | .if_expression cond then_ otherwise =>
    has_until cond || has_until then_ || has_until_opt otherwise
  | .until_statement _ _ => true
  | .var_decl _ expr => has_until expr
  | .essignment_expression _ expr => has_until expr
  | .variable _ => false
  | .expr_list exprs => has_until_list exprs
  | .builtin_binop_function _ fst snd => has_until fst || has_until snd
/-- One of the trees of the list contains an `until_statement` node. -/
def has_until_list : List expression → Bool
  | [] => false
  | e :: rest => has_until e || has_until_list rest
/-- The optional tree is present and contains an `until_statement` node. -/
def has_until_opt : Option expression → Bool
  | none => false
  | some e => has_until e
end

mutual
/-- The nesting depth of the tree `e`: the number of nodes below the root on
the longest path. -/
def nesting : expression → Nat
  | .literal _ => 0
  | .print_function exprs => nesting_list exprs + 1
  | .function_call _ args => nesting_list args + 1
  | .tostr_function arg => nesting arg + 1
  | .toint_function arg => nesting arg + 1
  | .if_expression cond then_ otherwise =>
    max (nesting cond) (max (nesting then_) (nesting_opt otherwise)) + 1
  | .until_statement cond body => max (nesting cond) (nesting body) + 1
  | .var_decl _ expr => nesting expr + 1
  | .essignment_expression _ expr => nesting expr + 1
  | .variable _ => 0
  | .expr_list exprs => nesting_list exprs + 1
  | .builtin_binop_function _ fst snd => max (nesting fst) (nesting snd) + 1
/-- The largest nesting depth in a list of trees. -/
def nesting_list : List expression → Nat
  | [] => 0
  | e :: rest => max (nesting e) (nesting_list rest)
/-- The nesting depth of an optional tree. -/
def nesting_opt : Option expression → Nat
  | none => 0
  | some e => nesting e
end

/-! ## Scenario programs -/

/-- A process state with the single global scope, empty, and nothing written. -/
def start : State := ⟨⟨[[]]⟩, "", ""⟩

/-- The literal node of an integer. -/
def int_lit (n : Int) : expression := .literal (.integer_type n)

/-- The literal node of a string. -/
def str_lit (t : String) : expression := .literal (.string_type t)

/-- The declaration `var x = 5` of the countdown program. -/
def countdown_decl : expression := .var_decl "x" (int_lit 5)

/-- The loop `until (x > 0) { print(x); x = x - 1 }` of the countdown
program. -/
def countdown_loop : expression :=
  .until_statement (.builtin_binop_function .GREATER (.variable "x") (int_lit 0))
    (.expr_list
      [ .print_function [.variable "x"],
        .essignment_expression "x"
          (.builtin_binop_function .MINUS (.variable "x") (int_lit 1)) ])

/-- The program `var x = 5; until (x > 0) { print(x); x = x - 1 }` in one
enclosing block. -/
def countdown : expression := .expr_list [countdown_decl, countdown_loop]

/-- The block of literals `1; 2; 3`. -/
def one_two_three : expression := .expr_list [int_lit 1, int_lit 2, int_lit 3]

/-- The node `print(t)` for a string literal `t`. -/
def print_str (t : String) : expression := .print_function [str_lit t]

/-- The program `if (0) { print("a") } else { print("b") }`. -/
def if_zero_a_b : expression :=
  .if_expression (int_lit 0) (print_str "a") (some (print_str "b"))

/-- The inner block `{ var x = 2; x = 3 }`. -/
def shadow_inner : expression :=
  .expr_list [.var_decl "x" (int_lit 2), .essignment_expression "x" (int_lit 3)]

/-- The program `{ var x = 1; { var x = 2; x = 3 }; x }`. -/
def shadow_block : expression :=
  .expr_list [.var_decl "x" (int_lit 1), shadow_inner, .variable "x"]

/-- The program `{ var x = 1; var x = 2; x }`. -/
def declare_twice : expression :=
  .expr_list [.var_decl "x" (int_lit 1), .var_decl "x" (int_lit 2), .variable "x"]

/-- The program `1 + "a"`. -/
def one_plus_a : expression := .builtin_binop_function .PLUS (int_lit 1) (str_lit "a")

/-- The program `if (-1) { print("a") } else { print("b") }`. -/
def if_minus_one_a_b : expression :=
  .if_expression (int_lit (-1)) (print_str "a") (some (print_str "b"))

/-- The program `until (-1) { print("a") }`. -/
def until_minus_one_a : expression := .until_statement (int_lit (-1)) (print_str "a")

/-- The expressions `var i = 1; if (i) var y = 1; until (i > 0) var z = (i = 0)`:
`y` is declared in a conditional branch and `z` in a loop body. -/
def leak_items : List expression :=
  [ .var_decl "i" (int_lit 1),
    .if_expression (.variable "i") (.var_decl "y" (int_lit 1)) none,
    .until_statement (.builtin_binop_function .GREATER (.variable "i") (int_lit 0))
      (.var_decl "z" (.essignment_expression "i" (int_lit 0))) ]

/-- The block of the expressions `leak_items`. -/
def leak_inner : expression := .expr_list leak_items

/-- The block `leak_inner` followed by a reference to `name`. -/
def leak_probe (name : String) : expression := .expr_list [leak_inner, .variable name]

/-- The program `1 / 0`. -/
def one_div_zero : expression := .builtin_binop_function .DIVIDE (int_lit 1) (int_lit 0)

/-- The program `until (1) T`, whose body is the unit literal. -/
def forever : expression := .until_statement (int_lit 1) (.literal UNIT__)

/-- The program `print(print("a"))`. -/
def print_print_a : expression := .print_function [print_str "a"]

/-- The program `print(var y = 1, y)`. -/
def print_decl_y : expression :=
  .print_function [.var_decl "y" (int_lit 1), .variable "y"]

/-! ## Fuel -/

theorem Res_bind_stable {r r2 : Res} {k k2 : type → State → Res}
    (h : r.bind k ≠ .timeout)
    (hr : r ≠ .timeout → r2 = r)
    (hk : ∀ v s, r = .ok v s → k v s ≠ .timeout → k2 v s = k v s) :
    r2.bind k2 = r.bind k := by
  cases r with
  | ok v s =>
    rw [hr (by simp)]
    exact hk v s rfl h
  | fatal msg s => rw [hr (by simp)]; rfl
  | undefined => rw [hr (by simp)]; rfl
  | timeout => exact absurd rfl h

theorem print_loop_stable {ev ev2 : expression → State → Res}
    (hev : ∀ e s, ev e s ≠ .timeout → ev2 e s = ev e s) :
    ∀ (es : List expression) (s : State),
      print_loop ev es s ≠ .timeout → print_loop ev2 es s = print_loop ev es s := by
  intro es
  induction es with
  | nil => intro s _; rfl
  | cons e rest ih =>
    intro s h
    simp only [print_loop] at h ⊢
    exact Res_bind_stable h (hev e s) (fun v s1 _ hk => ih _ hk)

theorem expr_list_loop_stable {ev ev2 : expression → State → Res}
    (hev : ∀ e s, ev e s ≠ .timeout → ev2 e s = ev e s) :
    ∀ (es : List expression) (last : type) (s : State),
      expr_list_loop ev es last s ≠ .timeout →
        expr_list_loop ev2 es last s = expr_list_loop ev es last s := by
  intro es
  induction es with
  | nil => intro last s _; rfl
  | cons e rest ih =>
    intro last s h
    simp only [expr_list_loop] at h ⊢
    exact Res_bind_stable h (hev e s) (fun v s1 _ hk => ih _ _ hk)

/-- One more unit of fuel does not change a finished evaluation. -/
theorem value_succ : ∀ (fuel : Nat) (e : expression) (s : State),
    value fuel e s ≠ .timeout → value (fuel + 1) e s = value fuel e s := by
  intro fuel
  induction fuel with
  | zero => intro e s h; exact absurd rfl h
  | succ n ih =>
    intro e s h
    cases e with
    | literal v => rfl
    | print_function exprs =>
      rw [value] at h ⊢
      conv => rhs; rw [value]
      exact Res_bind_stable h (print_loop_stable ih exprs s) (fun _ _ _ _ => rfl)
    | function_call name args => rfl
    | tostr_function arg =>
      rw [value] at h ⊢
      conv => rhs; rw [value]
      exact Res_bind_stable h (ih arg s) (fun _ _ _ _ => rfl)
    | toint_function arg =>
      rw [value] at h ⊢
      conv => rhs; rw [value]
      exact Res_bind_stable h (ih arg s) (fun _ _ _ _ => rfl)
    | if_expression cond then_ otherwise =>
      rw [value] at h ⊢
      conv => rhs; rw [value]
      refine Res_bind_stable h (ih cond s) (fun c s1 _ hk => ?_)
      dsimp only at hk ⊢
      split
      · rw [if_pos (by assumption)] at hk; exact ih _ _ hk
      · rw [if_neg (by assumption)] at hk
        cases otherwise with
        | none => rfl
        | some e => exact ih _ _ hk
    | until_statement cond body =>
      rw [value] at h ⊢
      conv => rhs; rw [value]
      refine Res_bind_stable h (ih cond s) (fun c s1 _ hk => ?_)
      dsimp only at hk ⊢
      split
      · rw [if_pos (by assumption)] at hk
        exact Res_bind_stable hk (ih body s1) (fun _ s2 _ hk2 => ih _ _ hk2)
      · rfl
    | var_decl var_name expr =>
      rw [value] at h ⊢
      conv => rhs; rw [value]
      exact Res_bind_stable h (ih expr s) (fun _ _ _ _ => rfl)
    | essignment_expression var_name expr =>
      rw [value] at h ⊢
      conv => rhs; rw [value]
      exact Res_bind_stable h (ih expr s) (fun _ _ _ _ => rfl)
    | «variable» name => rfl
    | expr_list exprs =>
      rw [value] at h ⊢
      conv => rhs; rw [value]
      exact Res_bind_stable h (expr_list_loop_stable ih exprs _ _) (fun _ _ _ _ => rfl)
    | builtin_binop_function op fst snd =>
      rw [value] at h ⊢
      conv => rhs; rw [value]
      refine Res_bind_stable h (ih fst s) (fun a s1 _ hk => ?_)
      exact Res_bind_stable hk (ih snd s1) (fun _ _ _ _ => rfl)

/-- More fuel does not change a finished evaluation. -/
theorem value_stable {fuel fuel2 : Nat} (hle : fuel ≤ fuel2) (e : expression) (s : State)
    (h : value fuel e s ≠ .timeout) : value fuel2 e s = value fuel e s := by
  induction hle with
  | refl => rfl
  | step _ ih => rw [value_succ _ e s (by rw [ih]; exact h), ih]

/-- An evaluation has at most one result. -/
theorem Evals_unique {e : expression} {s : State} {r r2 : Res}
    (h : Evals e s r) (h2 : Evals e s r2) : r = r2 := by
  obtain ⟨n, hn, hr⟩ := h
  obtain ⟨m, hm, hr2⟩ := h2
  rcases Nat.le_total n m with hle | hle
  · rw [← hn, ← hm]; exact (value_stable hle e s (by rw [hn]; exact hr)).symm
  · rw [← hn, ← hm]; exact value_stable hle e s (by rw [hm]; exact hr2)

/-! ## Scope depth -/

theorem Res_bind_eq_ok {r : Res} {k : type → State → Res} {v : type} {s2 : State} :
    r.bind k = .ok v s2 ↔ ∃ v1 s1, r = .ok v1 s1 ∧ k v1 s1 = .ok v s2 := by
  cases r with
  | ok w s =>
    constructor
    · intro h; exact ⟨w, s, rfl, h⟩
    · rintro ⟨v1, s1, h1, h2⟩; cases h1; exact h2
  | fatal msg s => simp [Res.bind]
  | undefined => simp [Res.bind]
  | timeout => simp [Res.bind]

theorem assign_scopes_length (scopes : List Frame) (name : String) (val : type) :
    (assign_scopes scopes name val).length = scopes.length := by
  induction scopes with
  | nil => rfl
  | cons scope rest ih => simp [assign_scopes, ih]

theorem toint_convert_ok {val v : type} {s s2 : State}
    (h : toint_convert val s = .ok v s2) : s2 = s := by
  unfold toint_convert at h
  split at h
  · cases h; rfl
  · cases h; rfl
  · split at h
    · cases h; rfl
    · simp [__error] at h

theorem builtin_binop_dispatch_ok {op : builtin_binop_kind} {a b v : type} {s s2 : State}
    (h : builtin_binop_dispatch op a b s = .ok v s2) :
    s2 = s ∧ type.operator op a b = .val v := by
  unfold builtin_binop_dispatch at h
  dsimp only at h
  split at h
  · split at h <;> simp [__error] at h
  · split at h
    · split at h <;> simp [__error] at h
    · split at h
      · cases h; exact ⟨rfl, by assumption⟩
      · simp [__error] at h
      · simp at h

theorem print_loop_depth {ev : expression → State → Res}
    (hev : ∀ e s v s2, ev e s = .ok v s2 → s2.depth = s.depth) :
    ∀ (es : List expression) (s : State) (v : type) (s2 : State),
      print_loop ev es s = .ok v s2 → s2.depth = s.depth := by
  intro es
  induction es with
  | nil => intro s v s2 h; simp [print_loop] at h; rw [← h.2]
  | cons e rest ih =>
    intro s v s2 h
    simp only [print_loop, Res_bind_eq_ok] at h
    obtain ⟨v1, s1, h1, h2⟩ := h
    rw [ih _ _ _ h2, ← hev _ _ _ _ h1]; rfl

theorem expr_list_loop_depth {ev : expression → State → Res}
    (hev : ∀ e s v s2, ev e s = .ok v s2 → s2.depth = s.depth) :
    ∀ (es : List expression) (last : type) (s : State) (v : type) (s2 : State),
      expr_list_loop ev es last s = .ok v s2 → s2.depth = s.depth := by
  intro es
  induction es with
  | nil => intro last s v s2 h; simp [expr_list_loop] at h; rw [← h.2]
  | cons e rest ih =>
    intro last s v s2 h
    simp only [expr_list_loop, Res_bind_eq_ok] at h
    obtain ⟨v1, s1, h1, h2⟩ := h
    rw [ih _ _ _ _ h2, hev _ _ _ _ h1]

/-- A call of `value` that returns leaves the scope chain as deep as it found
it. -/
theorem value_depth : ∀ (fuel : Nat) (e : expression) (s : State) (v : type) (s2 : State),
    value fuel e s = .ok v s2 → s2.depth = s.depth := by
  intro fuel
  induction fuel with
  | zero => intro e s v s2 h; simp [value] at h
  | succ n ih =>
    intro e s v s2 h
    cases e with
    | literal w => simp [value] at h; rw [← h.2]
    | print_function exprs =>
      simp only [value, Res_bind_eq_ok] at h
      obtain ⟨v1, s1, h1, h2⟩ := h
      cases h2
      exact print_loop_depth ih _ _ _ _ h1 ▸ rfl
    | function_call name args => simp [value] at h; rw [← h.2]
    | tostr_function arg =>
      simp only [value, Res_bind_eq_ok] at h
      obtain ⟨v1, s1, h1, h2⟩ := h
      cases h2
      exact ih _ _ _ _ h1
    | toint_function arg =>
      simp only [value, Res_bind_eq_ok] at h
      obtain ⟨v1, s1, h1, h2⟩ := h
      rw [toint_convert_ok h2]
      exact ih _ _ _ _ h1
    | if_expression cond then_ otherwise =>
      simp only [value, Res_bind_eq_ok] at h
      obtain ⟨c, s1, h1, h2⟩ := h
      rw [← ih _ _ _ _ h1]
      split at h2
      · exact ih _ _ _ _ h2
      · cases otherwise with
        | none => cases h2; rfl
        | some e => exact ih _ _ _ _ h2
    | until_statement cond body =>
      simp only [value, Res_bind_eq_ok] at h
      obtain ⟨c, s1, h1, h2⟩ := h
      rw [← ih _ _ _ _ h1]
      split at h2
      · rw [Res_bind_eq_ok] at h2
        obtain ⟨b, s3, h3, h4⟩ := h2
        rw [ih _ _ _ _ h4, ih _ _ _ _ h3]
      · cases h2; rfl
    | var_decl var_name expr =>
      simp only [value, Res_bind_eq_ok] at h
      obtain ⟨v1, s1, h1, h2⟩ := h
      rw [← ih _ _ _ _ h1]
      split at h2
      · simp at h2
      · rename_i ctx hctx
        cases h2
        unfold context.set_local_variable at hctx
        split at hctx
        · simp at hctx
        · rename_i scope rest hv
          cases hctx
          have : s1.ctx.variables_ = scope :: rest := by
            revert hv; split <;> exact id
          simp [State.depth, this]
    | essignment_expression var_name expr =>
      simp only [value, Res_bind_eq_ok] at h
      obtain ⟨v1, s1, h1, h2⟩ := h
      rw [← ih _ _ _ _ h1]
      split at h2
      · simp [__error] at h2
      · cases h2
        simp [State.depth, context.assign_to_variable, assign_scopes_length]
    | «variable» name =>
      simp only [value] at h
      split at h
      · simp [__error] at h
      · cases h; rfl
    | expr_list exprs =>
      simp only [value, Res_bind_eq_ok] at h
      obtain ⟨v1, s1, h1, h2⟩ := h
      have hd := expr_list_loop_depth ih _ _ _ _ _ h1
      split at h2
      · simp at h2
      · rename_i ctx hctx
        cases h2
        unfold context.pop_scope at hctx
        split at hctx
        · simp at hctx
        · rename_i top rest hv
          cases hctx
          simp [State.depth, context.new_scope, hv] at hd
          simp [State.depth, hd]
    | builtin_binop_function op fst snd =>
      simp only [value, Res_bind_eq_ok] at h
      obtain ⟨a, s1, h1, b, s3, h3, h4⟩ := h
      rw [(builtin_binop_dispatch_ok h4).1, ih _ _ _ _ h3, ih _ _ _ _ h1]

theorem Evals_depth {e : expression} {s s2 : State} {v : type}
    (h : Evals e s (.ok v s2)) : s2.depth = s.depth := by
  obtain ⟨n, hn, _⟩ := h
  exact value_depth n e s v s2 hn

/-! ## Blocks -/

theorem SeqRuns_depth : ∀ (es : List expression) (s : State) (vs : List type) (s2 : State),
    SeqRuns es s vs s2 → s2.depth = s.depth ∧ vs.length = es.length := by
  intro es
  induction es with
  | nil => intro s vs s2 h; obtain ⟨h1, h2⟩ := h; subst h1 h2; exact ⟨rfl, rfl⟩
  | cons e rest ih =>
    intro s vs s2 h
    obtain ⟨v, s1, vs1, h1, h2, h3⟩ := h
    obtain ⟨h4, h5⟩ := ih _ _ _ h3
    subst h2
    exact ⟨by rw [h4, Evals_depth h1], by simp [h5]⟩

theorem expr_list_loop_runs (fuel : Nat) :
    ∀ (es : List expression) (last : type) (s : State) (v : type) (s2 : State),
      expr_list_loop (value fuel) es last s = .ok v s2 →
        ∃ vs, SeqRuns es s vs s2 ∧ v = vs.getLastD last := by
  intro es
  induction es with
  | nil =>
    intro last s v s2 h
    simp only [expr_list_loop, Res.ok.injEq] at h
    exact ⟨[], ⟨rfl, h.2.symm⟩, h.1.symm⟩
  | cons e rest ih =>
    intro last s v s2 h
    simp only [expr_list_loop, Res_bind_eq_ok] at h
    obtain ⟨v1, s1, h1, h2⟩ := h
    obtain ⟨vs1, h3, h4⟩ := ih _ _ _ _ h2
    exact ⟨v1 :: vs1, ⟨v1, s1, vs1, ⟨fuel, h1, by simp⟩, rfl, h3⟩, by rw [List.getLastD_cons]; exact h4⟩

theorem SeqRuns_loop : ∀ (es : List expression) (s : State) (vs : List type) (s2 : State),
    SeqRuns es s vs s2 → ∀ last, ∃ fuel, ∀ m, fuel ≤ m →
      expr_list_loop (value m) es last s = .ok (vs.getLastD last) s2 := by
  intro es
  induction es with
  | nil =>
    intro s vs s2 h last
    obtain ⟨h1, h2⟩ := h
    subst h1 h2
    exact ⟨0, fun m _ => rfl⟩
  | cons e rest ih =>
    intro s vs s2 h last
    obtain ⟨v, s1, vs1, ⟨n1, h1, _⟩, h2, h3⟩ := h
    obtain ⟨n2, h4⟩ := ih _ _ _ h3 v
    subst h2
    refine ⟨max n1 n2, fun m hm => ?_⟩
    have hv : value m e s = .ok v s1 := by
      rw [value_stable (le_trans (le_max_left _ _) hm) e s (by rw [h1]; simp), h1]
    simp only [expr_list_loop, hv, Res.bind, List.getLastD_cons]
    exact h4 m (le_trans (le_max_right _ _) hm)

theorem expr_list_evals_iff (exprs : List expression) (s : State) (v : type) (s2 : State) :
    Evals (.expr_list exprs) s (.ok v s2) ↔
      ∃ vs s1, SeqRuns exprs s.enter vs s1 ∧ v = vs.getLastD UNIT__ ∧ s2 = s1.leave := by
  constructor
  · rintro ⟨fuel, h, _⟩
    cases fuel with
    | zero => simp [value] at h
    | succ n =>
      simp only [value, Res_bind_eq_ok] at h
      obtain ⟨v1, s1, h1, h2⟩ := h
      obtain ⟨vs, h3, h4⟩ := expr_list_loop_runs n _ _ _ _ _ h1
      refine ⟨vs, s1, h3, ?_⟩
      cases hv : s1.ctx.variables_ with
      | nil => simp [context.pop_scope, hv] at h2
      | cons top rest =>
        simp only [context.pop_scope, hv, Res.ok.injEq] at h2
        refine ⟨by rw [← h2.1]; exact h4, ?_⟩
        rw [← h2.2]
        simp [State.leave, hv]
  · rintro ⟨vs, s1, h1, h2, h3⟩
    obtain ⟨fuel, hf⟩ := SeqRuns_loop _ _ _ _ h1 UNIT__
    have hd := (SeqRuns_depth _ _ _ _ h1).1
    refine ⟨fuel + 1, ?_, by simp⟩
    have hl := hf fuel (le_refl _)
    simp only [State.enter] at hl
    simp only [value, hl, Res.bind]
    cases hv : s1.ctx.variables_ with
    | nil => simp [State.depth, State.enter, context.new_scope, hv] at hd
    | cons top rest =>
      simp [context.pop_scope, hv, h2, h3, State.leave]

/-- C1 (scope balance). Whenever the evaluation of an expression returns, the
scope chain is exactly as deep afterwards as before. For a block: its
expressions run one after the other in a chain that `new_scope` made exactly
one scope deeper, that run starts and ends at this depth whatever blocks,
conditionals and loops are nested inside, and the block returns with exactly
the innermost scope of that moment removed. -/
theorem C1_scope_balance :
    (∀ (e : expression) (s : State) (v : type) (s2 : State),
      Evals e s (.ok v s2) → s2.depth = s.depth) ∧
    (∀ (exprs : List expression) (s : State) (v : type) (s2 : State),
      Evals (.expr_list exprs) s (.ok v s2) →
        ∃ vs s1, SeqRuns exprs s.enter vs s1 ∧
          s.enter.depth = s.depth + 1 ∧ s1.depth = s.depth + 1 ∧
          s1.ctx.pop_scope = some s2.ctx ∧ s2 = s1.leave ∧ s2.depth = s.depth) := by
  refine ⟨fun e s v s2 h => Evals_depth h, fun exprs s v s2 h => ?_⟩
  obtain ⟨vs, s1, h1, _, h3⟩ := (expr_list_evals_iff exprs s v s2).1 h
  have hd := (SeqRuns_depth _ _ _ _ h1).1
  have he : s.enter.depth = s.depth + 1 := by
    simp [State.enter, State.depth, context.new_scope]
  refine ⟨vs, s1, h1, he, by rw [hd, he], ?_, h3, Evals_depth h⟩
  rw [he] at hd
  cases hv : s1.ctx.variables_ with
  | nil => simp [State.depth, hv] at hd
  | cons top rest => simp [context.pop_scope, hv, h3, State.leave]

/-- Witness of C1: the countdown program, a block holding a loop whose body is
another block, returns from the start state and leaves one scope. -/
theorem C1_scope_balance_witness :
    Evals countdown start (.ok UNIT__ ⟨⟨[[]]⟩, "5\n4\n3\n2\n1\n", ""⟩) ∧
      (State.mk ⟨[[]]⟩ "5\n4\n3\n2\n1\n" "").depth = start.depth :=
  ⟨⟨10, by rfl, by simp⟩,
    C1_scope_balance.1 countdown start UNIT__ _ ⟨10, by rfl, by simp⟩⟩

/-- C2 (block value). A block with no expression returns `UNIT__` and leaves
the state as it was. A block returns exactly when its expressions evaluate
normally one after the other in list order, starting in the entered scope; it
then returns the value of the last expression (for a non-empty list, the last
element of the results) and removes the scope. The block of literals
`1; 2; 3` returns the integer 3. -/
theorem C2_block_value :
    (∀ s : State, Evals (.expr_list []) s (.ok UNIT__ s)) ∧
    (∀ (exprs : List expression) (s : State) (vs : List type) (s1 : State)
        (hne : vs ≠ []),
      SeqRuns exprs s.enter vs s1 →
        Evals (.expr_list exprs) s (.ok (vs.getLast hne) s1.leave)) ∧
    (∀ (exprs : List expression) (s : State) (v : type) (s2 : State),
      Evals (.expr_list exprs) s (.ok v s2) →
        ∃ vs s1, SeqRuns exprs s.enter vs s1 ∧ vs.length = exprs.length ∧
          v = vs.getLastD UNIT__ ∧ s2 = s1.leave) ∧
    (∀ s : State, Evals one_two_three s (.ok (.integer_type 3) s)) := by
  refine ⟨fun s => ⟨1, rfl, by simp⟩, ?_, ?_, fun s => ⟨2, rfl, by simp⟩⟩
  · intro exprs s vs s1 hne h
    refine (expr_list_evals_iff exprs s _ _).2 ⟨vs, s1, h, ?_, rfl⟩
    rw [List.getLastD_eq_getLast?, List.getLast?_eq_getLast _ hne]; rfl
  · intro exprs s v s2 h
    obtain ⟨vs, s1, h1, h2, h3⟩ := (expr_list_evals_iff exprs s v s2).1 h
    exact ⟨vs, s1, h1, (SeqRuns_depth _ _ _ _ h1).2, h2, h3⟩

/-- Witness of C2: in the block `1; 2; 3` the three literals run in order from
the entered start state, and the block returns the last result. -/
theorem C2_block_value_witness :
    SeqRuns [int_lit 1, int_lit 2, int_lit 3] start.enter
        [.integer_type 1, .integer_type 2, .integer_type 3] start.enter ∧
      Evals (.expr_list [int_lit 1, int_lit 2, int_lit 3]) start
        (.ok (.integer_type 3) start.enter.leave) :=
  have h : SeqRuns [int_lit 1, int_lit 2, int_lit 3] start.enter
      [.integer_type 1, .integer_type 2, .integer_type 3] start.enter :=
    ⟨_, _, _, ⟨1, rfl, by simp⟩, rfl, _, _, _, ⟨1, rfl, by simp⟩, rfl,
      _, _, _, ⟨1, rfl, by simp⟩, rfl, rfl, rfl⟩
  ⟨h, C2_block_value.2.1 _ start _ _ (by simp) h⟩

/-! ## Conditionals -/

theorem Evals_value {e : expression} {s : State} {r : Res} (h : Evals e s r)
    {fuel : Nat} (hf : value fuel e s ≠ .timeout) : value fuel e s = r :=
  Evals_unique ⟨fuel, rfl, hf⟩ h

theorem Res_bind_ne_timeout {r : Res} {k : type → State → Res}
    (h : r.bind k ≠ .timeout) : r ≠ .timeout := by
  intro hr; rw [hr] at h; exact h rfl

/-- After a sub-expression that returns `v` in state `s1`, a node whose `value`
is that evaluation followed by `k` ends as `k` ends. -/
theorem Evals_after {e : expression} {s s1 : State} {v : type}
    (he : Evals e s (.ok v s1)) (node : expression)
    (k : Nat → type → State → Res)
    (hnode : ∀ fuel, value (fuel + 1) node s = (value fuel e s).bind (k fuel))
    (hk : ∀ fuel, k fuel v s1 ≠ .timeout → k (fuel + 1) v s1 = k fuel v s1) (r : Res) :
    Evals node s r ↔ ∃ fuel, k fuel v s1 = r ∧ r ≠ .timeout := by
  have hkle : ∀ {a b : Nat}, a ≤ b → k a v s1 ≠ .timeout → k b v s1 = k a v s1 := by
    intro a b hab
    induction hab with
    | refl => intro _; rfl
    | step _ ih => intro h; rw [hk _ (by rw [ih h]; exact h), ih h]
  constructor
  · rintro ⟨fuel, h, hr⟩
    cases fuel with
    | zero => exact absurd h.symm (by simpa [value] using hr)
    | succ n =>
      rw [hnode] at h
      have hc : value n e s = .ok v s1 :=
        Evals_value he (Res_bind_ne_timeout (by rw [h]; exact hr))
      rw [hc] at h
      exact ⟨n, h, hr⟩
  · rintro ⟨fuel, h, hr⟩
    obtain ⟨m, hm, _⟩ := he
    refine ⟨max fuel m + 1, ?_, hr⟩
    rw [hnode, value_stable (le_max_right fuel m) e s (by rw [hm]; simp), hm]
    show k (max fuel m) v s1 = r
    rw [hkle (le_max_left fuel m) (by rw [h]; exact hr), h]

/-- C3 (conditional). When the condition evaluates normally to `c`, leaving
state `s1`: if `truth(c) > 0` the node ends exactly as the then-branch ends
from `s1` (same value, same effects, same failure); otherwise it ends exactly
as the otherwise-branch ends from `s1` when there is one, and returns `UNIT__`
in state `s1`, no branch evaluated, when there is none. The program
`if (0) { print("a") } else { print("b") }` writes `b` and a newline, and
nothing else. -/
theorem C3_conditional :
    (∀ (cond then_ : expression) (otherwise : Option expression) (s s1 : State) (c : type),
      Evals cond s (.ok c s1) →
        (c.to_integer_type > 0 →
          ∀ r, Evals (.if_expression cond then_ otherwise) s r ↔ Evals then_ s1 r) ∧
        (¬ c.to_integer_type > 0 → ∀ e, otherwise = some e →
          ∀ r, Evals (.if_expression cond then_ otherwise) s r ↔ Evals e s1 r) ∧
        (¬ c.to_integer_type > 0 → otherwise = none →
          Evals (.if_expression cond then_ otherwise) s (.ok UNIT__ s1))) ∧
    (∀ s : State, Evals if_zero_a_b s (.ok UNIT__ { s with cout := s.cout ++ "b" ++ "\n" })) := by
  refine ⟨fun cond then_ otherwise s s1 c hc => ⟨?_, ?_, ?_⟩, fun s => ⟨3, rfl, by simp⟩⟩
  · intro hpos r
    refine Evals_after hc _ (fun fuel _ s1 => value fuel then_ s1) ?_ ?_ r
    · intro fuel
      rw [value]
      obtain ⟨m, hm, _⟩ := hc
      cases hv : value fuel cond s with
      | ok v2 s2 =>
        have := Evals_value ⟨m, hm, by simp⟩ (show value fuel cond s ≠ .timeout by rw [hv]; simp)
        rw [hv] at this
        cases this
        simp [Res.bind, hpos]
      | fatal msg s2 => rfl
      | undefined => rfl
      | timeout => rfl
    · intro fuel h; exact value_succ fuel then_ s1 h
  · intro hneg e he r
    subst he
    refine Evals_after hc _ (fun fuel _ s1 => value fuel e s1) ?_ ?_ r
    · intro fuel
      rw [value]
      obtain ⟨m, hm, _⟩ := hc
      cases hv : value fuel cond s with
      | ok v2 s2 =>
        have := Evals_value ⟨m, hm, by simp⟩ (show value fuel cond s ≠ .timeout by rw [hv]; simp)
        rw [hv] at this
        cases this
        simp [Res.bind, hneg]
      | fatal msg s2 => rfl
      | undefined => rfl
      | timeout => rfl
    · intro fuel h; exact value_succ fuel e s1 h
  · intro hneg he
    subst he
    obtain ⟨m, hm, _⟩ := hc
    exact ⟨m + 1, by simp [value, hm, Res.bind, hneg], by simp⟩

/-- Witness of C3: the condition `0` evaluates to the integer 0, which is not
greater than zero, so the conditional ends as its otherwise-branch
`print("b")` ends. -/
theorem C3_conditional_witness :
    Evals (int_lit 0) start (.ok (.integer_type 0) start) ∧
      Evals if_zero_a_b start (.ok UNIT__ ⟨⟨[[]]⟩, "b\n", ""⟩) :=
  ⟨⟨1, rfl, by simp⟩,
    ((C3_conditional.1 (int_lit 0) (print_str "a") (some (print_str "b")) start start
        (.integer_type 0) ⟨1, rfl, by simp⟩).2.1 (by decide) (print_str "b") rfl _).2
      ⟨2, by rfl, by simp⟩⟩

/-! ## The countdown scenario -/

theorem countdown_decl_value (scopes : List Frame) (out err : String) :
    ∃ err2, value 2 countdown_decl ⟨⟨[] :: scopes⟩, out, err⟩ =
      .ok (.integer_type 5) ⟨⟨[("x", .integer_type 5)] :: scopes⟩, out, err2⟩ := by
  cases h : get_scopes scopes "x" with
  | none =>
    refine ⟨err, ?_⟩
    simp [countdown_decl, int_lit, value, Res.bind, context.get_variable, get_scopes,
      Frame.count, Frame.find, h, context.set_local_variable, Frame.assign]
  | some w =>
    refine ⟨err ++ "Warning: " ++ ("redeclaration of variable \"" ++ "x" ++ "\"") ++ "\n", ?_⟩
    simp [countdown_decl, int_lit, value, Res.bind, context.get_variable, get_scopes,
      Frame.count, Frame.find, h, context.set_local_variable, Frame.assign, __warning]

theorem countdown_loop_value (scopes : List Frame) (out err : String) :
    ∃ scopes2, value 9 countdown_loop ⟨⟨[("x", .integer_type 5)] :: scopes⟩, out, err⟩ =
      .ok UNIT__ ⟨⟨[("x", .integer_type 0)] :: scopes2⟩,
        out ++ "5" ++ "\n" ++ "4" ++ "\n" ++ "3" ++ "\n" ++ "2" ++ "\n" ++ "1" ++ "\n", err⟩ :=
  ⟨_, rfl⟩

/-- C4 (countdown). From every state, the enclosing block runs the declaration
`var x = 5` (value 5) and then the loop, in this order; the loop node returns
`UNIT__`, and so does the block. The run ends normally, the block leaves the
scope it entered, and `std::cout` has grown by exactly the five lines
`5`, `4`, `3`, `2`, `1`. -/
theorem C4_countdown (s : State) :
    ∃ s2, SeqRuns [countdown_decl, countdown_loop] s.enter [.integer_type 5, UNIT__] s2 ∧
      Evals countdown s (.ok UNIT__ s2.leave) ∧
      s2.leave.cout = s.cout ++ "5\n4\n3\n2\n1\n" ∧
      s2.leave.depth = s.depth := by
  obtain ⟨⟨scopes⟩, out, err⟩ := s
  obtain ⟨err2, hd⟩ := countdown_decl_value scopes out err
  obtain ⟨scopes2, hl⟩ := countdown_loop_value scopes out err2
  have hrun : SeqRuns [countdown_decl, countdown_loop] (State.mk ⟨scopes⟩ out err).enter
      [.integer_type 5, UNIT__] ⟨⟨[("x", .integer_type 0)] :: scopes2⟩,
        out ++ "5" ++ "\n" ++ "4" ++ "\n" ++ "3" ++ "\n" ++ "2" ++ "\n" ++ "1" ++ "\n", err2⟩ :=
    ⟨_, _, _, ⟨2, hd, by simp⟩, rfl, _, _, _, ⟨9, hl, by simp⟩, rfl, rfl, rfl⟩
  have hev := (expr_list_evals_iff _ _ _ _).2 ⟨_, _, hrun, rfl, rfl⟩
  refine ⟨_, hrun, hev, ?_, Evals_depth hev⟩
  simp only [State.leave, String.append_assoc]
  rfl

/-! ## The binary-operator dispatcher -/

/-- C5 (failure matrix), the code at the failing input. With operands of
different kinds, or two units, the dispatcher builds its message from
`builtin_binop_kind_to_string(op_)` before it calls `__error`. For the four
arithmetic kinds that function has no `case` and returns nothing, so the
dispatcher reaches undefined behaviour instead of the fatal error; for a
comparison kind on the same operands it fails fatally with the type-mismatch
message. -/
theorem C5_arithmetic_mismatch (s : State) :
    builtin_binop_kind_to_string .PLUS = none ∧
    builtin_binop_dispatch .PLUS (.integer_type 1) (.string_type "a") s = .undefined ∧
    builtin_binop_dispatch .MINUS (.integer_type 1) (.string_type "a") s = .undefined ∧
    builtin_binop_dispatch .MULTIPLY (.string_type "a") .unit_type s = .undefined ∧
    builtin_binop_dispatch .DIVIDE .unit_type (.integer_type 1) s = .undefined ∧
    builtin_binop_dispatch .PLUS .unit_type .unit_type s = .undefined ∧
    builtin_binop_dispatch .EQUAL (.integer_type 1) (.string_type "a") s =
      .fatal "Cannot performe equal operation on type integer and type string"
        { s with cerr := s.cerr ++ "Error: " ++
          "Cannot performe equal operation on type integer and type string" ++ "\n" } :=
  ⟨rfl, rfl, rfl, rfl, rfl, rfl, rfl⟩

/-! ## Names -/

theorem Frame_count_ne_zero (scope : Frame) (name : String) :
    scope.count name ≠ 0 ↔ scope.find name ≠ none := by
  unfold Frame.count
  cases scope.find name <;> simp

theorem get_scopes_eq_none (scopes : List Frame) (name : String) :
    get_scopes scopes name = none ↔ ∀ scope ∈ scopes, Frame.find scope name = none := by
  induction scopes with
  | nil => simp [get_scopes]
  | cons scope rest ih =>
    rw [get_scopes]
    by_cases h : scope.count name ≠ 0
    · have h2 := (Frame_count_ne_zero scope name).1 h
      simp [h, h2]
    · have h2 : Frame.find scope name = none := by
        by_contra hc; exact h ((Frame_count_ne_zero scope name).2 hc)
      simp [h, h2, ih]

theorem get_scopes_innermost (pre : List Frame) (scope : Frame) (post : List Frame)
    (name : String) (v : type) (hpre : ∀ f ∈ pre, Frame.find f name = none)
    (hscope : Frame.find scope name = some v) :
    get_scopes (pre ++ scope :: post) name = some v := by
  induction pre with
  | nil =>
    have h : scope.count name ≠ 0 := (Frame_count_ne_zero scope name).2 (by simp [hscope])
    simp [get_scopes, h, hscope]
  | cons f rest ih =>
    have hf : Frame.find f name = none := hpre f (by simp)
    have h : ¬ f.count name ≠ 0 := fun hc => (Frame_count_ne_zero f name).1 hc hf
    simp only [List.cons_append, get_scopes, h, if_false]
    exact ih (fun g hg => hpre g (by simp [hg]))

theorem essignment_value_succ (var_name : String) (expr : expression) (s : State)
    (fuel : Nat) :
    value (fuel + 1) (.essignment_expression var_name expr) s =
      (value fuel expr s).bind (fun v s1 =>
        match s1.ctx.get_variable var_name with
        | none => __error ("undefined symbol \"" ++ var_name ++ "\"") s1
        | some _ => .ok v { s1 with ctx := s1.ctx.assign_to_variable var_name v }) := by
  rw [value]

/-- How an assignment ends once its right-hand side has returned `v` in state
`s1`. -/
theorem essignment_evals {var_name : String} {expr : expression} {s s1 : State} {v : type}
    (he : Evals expr s (.ok v s1)) (r : Res) :
    Evals (.essignment_expression var_name expr) s r ↔
      r = (match s1.ctx.get_variable var_name with
        | none => __error ("undefined symbol \"" ++ var_name ++ "\"") s1
        | some _ => .ok v { s1 with ctx := s1.ctx.assign_to_variable var_name v }) := by
  rw [Evals_after he _ (fun _ v s1 =>
        match s1.ctx.get_variable var_name with
        | none => __error ("undefined symbol \"" ++ var_name ++ "\"") s1
        | some _ => .ok v { s1 with ctx := s1.ctx.assign_to_variable var_name v })
      (essignment_value_succ var_name expr s) (fun _ _ => rfl) r]
  constructor
  · rintro ⟨_, h, _⟩; exact h.symm
  · intro h
    refine ⟨0, h.symm, ?_⟩
    rw [h]
    cases s1.ctx.get_variable var_name <;> simp [__error]

/-- C6 (undefined names). A variable reference fails fatally exactly when no
scope of the chain binds the name, and then returns no value; when `scope` is
the innermost scope that binds the name, the reference returns the value bound
there and changes nothing. An assignment whose right-hand side has returned in
state `s1` fails fatally exactly when no scope of `s1` binds the name, and the
state at that failure has the context and the output of `s1`: no binding is
written. -/
theorem C6_undefined_names :
    (∀ (name : String) (s : State),
      ((∃ msg s2, Evals (.variable name) s (.fatal msg s2)) ↔
        ∀ scope ∈ s.ctx.variables_, Frame.find scope name = none) ∧
      ((∀ scope ∈ s.ctx.variables_, Frame.find scope name = none) →
        ∀ v s2, ¬ Evals (.variable name) s (.ok v s2)) ∧
      (∀ (pre : List Frame) (scope : Frame) (post : List Frame) (v : type),
        s.ctx.variables_ = pre ++ scope :: post →
        (∀ f ∈ pre, Frame.find f name = none) → Frame.find scope name = some v →
          Evals (.variable name) s (.ok v s))) ∧
    (∀ (name : String) (expr : expression) (s s1 : State) (v : type),
      Evals expr s (.ok v s1) →
        ((∃ msg s2, Evals (.essignment_expression name expr) s (.fatal msg s2)) ↔
          ∀ scope ∈ s1.ctx.variables_, Frame.find scope name = none) ∧
        (∀ msg s2, Evals (.essignment_expression name expr) s (.fatal msg s2) →
          s2.ctx = s1.ctx ∧ s2.cout = s1.cout)) := by
  constructor
  · intro name s
    have hval : ∀ r, Evals (.variable name) s r ↔
        r = (match s.ctx.get_variable name with
          | none => __error ("usage of undefined symbol \"" ++ name ++ "\"") s
          | some var => .ok var s) := by
      intro r
      constructor
      · rintro ⟨fuel, h, hr⟩
        cases fuel with
        | zero => exact absurd h.symm (by simpa [value] using hr)
        | succ n => rw [← h, value]
      · intro h
        refine ⟨1, by rw [h, value], ?_⟩
        rw [h]
        cases s.ctx.get_variable name <;> simp [__error]
    refine ⟨?_, ?_, ?_⟩
    · rw [← get_scopes_eq_none]
      constructor
      · rintro ⟨msg, s2, h⟩
        rw [hval] at h
        cases hg : s.ctx.get_variable name with
        | none => exact hg
        | some w => rw [hg] at h; simp at h
      · intro hg
        have hg2 : s.ctx.get_variable name = none := hg
        refine ⟨"usage of undefined symbol \"" ++ name ++ "\"",
          { s with cerr := s.cerr ++ "Error: " ++
            ("usage of undefined symbol \"" ++ name ++ "\"") ++ "\n" }, (hval _).2 ?_⟩
        rw [hg2]
        rfl
    · intro hun v s2 h
      rw [hval] at h
      have hg : s.ctx.get_variable name = none := (get_scopes_eq_none _ _).2 hun
      rw [hg] at h
      simp [__error] at h
    · intro pre scope post v hs hpre hscope
      refine (hval _).2 ?_
      have hg : s.ctx.get_variable name = some v := by
        unfold context.get_variable
        rw [hs]
        exact get_scopes_innermost pre scope post name v hpre hscope
      rw [hg]
  · intro name expr s s1 v he
    refine ⟨?_, ?_⟩
    · rw [← get_scopes_eq_none]
      constructor
      · rintro ⟨msg, s2, h⟩
        rw [essignment_evals he] at h
        cases hg : s1.ctx.get_variable name with
        | none => exact hg
        | some w => rw [hg] at h; simp at h
      · intro hg
        have hg2 : s1.ctx.get_variable name = none := hg
        refine ⟨"undefined symbol \"" ++ name ++ "\"",
          { s1 with cerr := s1.cerr ++ "Error: " ++
            ("undefined symbol \"" ++ name ++ "\"") ++ "\n" }, (essignment_evals he _).2 ?_⟩
        rw [hg2]
        rfl
    · intro msg s2 h
      rw [essignment_evals he] at h
      cases hg : s1.ctx.get_variable name with
      | none =>
        rw [hg] at h
        simp only [__error, Res.fatal.injEq] at h
        rw [h.2]
        exact ⟨rfl, rfl⟩
      | some w => rw [hg] at h; simp at h

/-- Witness of C6: no scope of the start state binds `y`, so the reference to
`y` fails fatally there. -/
theorem C6_undefined_names_witness :
    (∀ scope ∈ start.ctx.variables_, Frame.find scope "y" = none) ∧
      ∃ msg s2, Evals (.variable "y") start (.fatal msg s2) :=
  ⟨by simp [start, Frame.find],
    ((C6_undefined_names.1 "y" start).1).2 (by simp [start, Frame.find])⟩

/-! ## Assignment and declaration -/

theorem Frame_find_assign_same (scope : Frame) (name : String) (v : type) :
    Frame.find (Frame.assign scope name v) name = some v := by
  induction scope with
  | nil => simp [Frame.assign, Frame.find]
  | cons kv rest ih =>
    obtain ⟨k, w⟩ := kv
    by_cases h : k = name
    · simp [Frame.assign, Frame.find, h]
    · simp [Frame.assign, Frame.find, h, ih]

theorem Frame_find_assign_other (scope : Frame) (name other : String) (v : type)
    (hne : other ≠ name) :
    Frame.find (Frame.assign scope name v) other = Frame.find scope other := by
  induction scope with
  | nil =>
    have : ¬ name = other := fun h => hne h.symm
    simp [Frame.assign, Frame.find, this]
  | cons kv rest ih =>
    obtain ⟨k, w⟩ := kv
    by_cases h : k = name
    · have : ¬ name = other := fun h => hne h.symm
      simp [Frame.assign, Frame.find, h, this]
    · by_cases h2 : k = other
      · subst h2; simp [Frame.assign, Frame.find, hne]
      · simp [Frame.assign, Frame.find, h, h2, ih]

theorem assign_scopes_getElem (scopes : List Frame) (name : String) (v : type) :
    ∀ (i : Nat) (scope : Frame), scopes[i]? = some scope →
      (assign_scopes scopes name v)[i]? =
        some (if scope.count name ≠ 0 then scope.assign name v else scope) := by
  induction scopes with
  | nil => intro i scope h; simp at h
  | cons f rest ih =>
    intro i scope h
    cases i with
    | zero =>
      simp only [List.getElem?_cons_zero, Option.some.injEq] at h
      subst h
      simp [assign_scopes]
    | succ j =>
      simp only [List.getElem?_cons_succ] at h
      simp only [assign_scopes, List.getElem?_cons_succ]
      exact ih j scope h

theorem shadow_first_decl (scopes : List Frame) (out err : String) :
    ∃ err2, value 2 (.var_decl "x" (int_lit 1)) ⟨⟨[] :: scopes⟩, out, err⟩ =
      .ok (.integer_type 1) ⟨⟨[("x", .integer_type 1)] :: scopes⟩, out, err2⟩ := by
  cases h : get_scopes scopes "x" with
  | none =>
    refine ⟨err, ?_⟩
    simp [int_lit, value, Res.bind, context.get_variable, get_scopes,
      Frame.count, Frame.find, h, context.set_local_variable, Frame.assign]
  | some w =>
    refine ⟨err ++ "Warning: " ++ ("redeclaration of variable \"" ++ "x" ++ "\"") ++ "\n", ?_⟩
    simp [int_lit, value, Res.bind, context.get_variable, get_scopes,
      Frame.count, Frame.find, h, context.set_local_variable, Frame.assign, __warning]

/-- C7 (multi-frame assignment). `assign_to_variable` keeps the number of
scopes; in every scope that binds the name the name is bound to the new value
afterwards, every scope that does not bind it is unchanged, and in every scope
the binding of every other name is unchanged. An assignment node whose
right-hand side returns `v` in a state where the name is bound returns `v`
after that update. The program `{ var x = 1; { var x = 2; x = 3 }; x }`
returns the integer 3 from every state. -/
theorem C7_multi_frame_assignment :
    (∀ (ctx : context) (name : String) (v : type),
      (ctx.assign_to_variable name v).variables_.length = ctx.variables_.length ∧
      ∀ (i : Nat) (scope : Frame), ctx.variables_[i]? = some scope →
        ∃ scope2, (ctx.assign_to_variable name v).variables_[i]? = some scope2 ∧
          (Frame.find scope name ≠ none → Frame.find scope2 name = some v) ∧
          (Frame.find scope name = none → scope2 = scope) ∧
          (∀ other, other ≠ name → Frame.find scope2 other = Frame.find scope other)) ∧
    (∀ (name : String) (expr : expression) (s s1 : State) (v : type),
      Evals expr s (.ok v s1) → s1.ctx.get_variable name ≠ none →
        Evals (.essignment_expression name expr) s
          (.ok v { s1 with ctx := s1.ctx.assign_to_variable name v })) ∧
    (∀ s : State, ∃ s2, Evals shadow_block s (.ok (.integer_type 3) s2)) := by
  refine ⟨fun ctx name v => ⟨assign_scopes_length _ _ _, fun i scope hi => ?_⟩, ?_, ?_⟩
  · refine ⟨_, assign_scopes_getElem ctx.variables_ name v i scope hi, ?_, ?_, ?_⟩
    · intro hb
      rw [if_pos ((Frame_count_ne_zero scope name).2 hb)]
      exact Frame_find_assign_same scope name v
    · intro hn
      rw [if_neg (fun hc => (Frame_count_ne_zero scope name).1 hc hn)]
    · intro other hne
      split
      · exact Frame_find_assign_other scope name other v hne
      · rfl
  · intro name expr s s1 v he hb
    refine (essignment_evals he _).2 ?_
    cases hg : s1.ctx.get_variable name with
    | none => exact absurd hg hb
    | some w => rfl
  · intro s
    obtain ⟨⟨scopes⟩, out, err⟩ := s
    obtain ⟨err2, hd⟩ := shadow_first_decl scopes out err
    have hrun : SeqRuns [.var_decl "x" (int_lit 1), shadow_inner, .variable "x"]
        (State.mk ⟨scopes⟩ out err).enter
        [.integer_type 1, .integer_type 3, .integer_type 3]
        ⟨⟨[("x", .integer_type 3)] :: assign_scopes scopes "x" (.integer_type 3)⟩, out,
          err2 ++ "Warning: " ++ ("redeclaration of variable \"" ++ "x" ++ "\"") ++ "\n"⟩ :=
      ⟨_, _, _, ⟨2, hd, by simp⟩, rfl, _, _, _, ⟨3, rfl, by simp⟩, rfl,
        _, _, _, ⟨1, rfl, by simp⟩, rfl, rfl, rfl⟩
    exact ⟨_, (expr_list_evals_iff _ _ _ _).2 ⟨_, _, hrun, rfl, rfl⟩⟩

/-- Witness of C7: in the state whose two scopes both bind `x`, the
assignment `x = 3` returns 3 and both scopes hold 3 afterwards. -/
theorem C7_multi_frame_assignment_witness :
    Evals (int_lit 3) ⟨⟨[[("x", .integer_type 2)], [("x", .integer_type 1)]]⟩, "", ""⟩
        (.ok (.integer_type 3)
          ⟨⟨[[("x", .integer_type 2)], [("x", .integer_type 1)]]⟩, "", ""⟩) ∧
      Evals (.essignment_expression "x" (int_lit 3))
        ⟨⟨[[("x", .integer_type 2)], [("x", .integer_type 1)]]⟩, "", ""⟩
        (.ok (.integer_type 3)
          ⟨⟨[[("x", .integer_type 3)], [("x", .integer_type 3)]]⟩, "", ""⟩) :=
  ⟨⟨1, rfl, by simp⟩,
    C7_multi_frame_assignment.2.1 "x" (int_lit 3)
      ⟨⟨[[("x", .integer_type 2)], [("x", .integer_type 1)]]⟩, "", ""⟩
      ⟨⟨[[("x", .integer_type 2)], [("x", .integer_type 1)]]⟩, "", ""⟩
      (.integer_type 3) ⟨1, rfl, by simp⟩ (by decide)⟩

theorem var_decl_value_succ (var_name : String) (expr : expression) (s : State)
    (fuel : Nat) :
    value (fuel + 1) (.var_decl var_name expr) s =
      (value fuel expr s).bind (fun v s1 =>
        match (match s1.ctx.get_variable var_name with
            | some _ => __warning ("redeclaration of variable \"" ++ var_name ++ "\"") s1
            | none => s1).ctx.set_local_variable var_name v with
        | none => .undefined
        | some ctx =>
          .ok v { (match s1.ctx.get_variable var_name with
            | some _ => __warning ("redeclaration of variable \"" ++ var_name ++ "\"") s1
            | none => s1) with ctx := ctx }) := by
  rw [value]

/-- How a declaration ends once its initializer has returned `v` in a state
`s1` that has an innermost scope. -/
theorem var_decl_evals (var_name : String) {expr : expression} {s s1 : State} {v : type}
    {scope : Frame} {rest : List Frame}
    (he : Evals expr s (.ok v s1)) (hs : s1.ctx.variables_ = scope :: rest) :
    Evals (.var_decl var_name expr) s
      (.ok v ⟨⟨Frame.assign scope var_name v :: rest⟩, s1.cout,
        match s1.ctx.get_variable var_name with
        | some _ => s1.cerr ++ "Warning: " ++
            ("redeclaration of variable \"" ++ var_name ++ "\"") ++ "\n"
        | none => s1.cerr⟩) := by
  rw [Evals_after he _ _ (var_decl_value_succ var_name expr s) (fun _ _ => rfl)]
  refine ⟨0, ?_, by simp⟩
  cases hg : s1.ctx.get_variable var_name with
  | none => simp [context.set_local_variable, hs]
  | some w => simp [context.set_local_variable, hs, __warning]

/-- C8 (declaration and redeclaration). When the initializer of `var x = e`
has returned `v` in a state `s1` with innermost scope `scope`, the declaration
returns `v`; the innermost scope then binds `x` to `v` and every other name as
before, the other scopes are the same, `std::cout` is the same, one warning
line has been added to `std::cerr` if some scope of `s1` bound `x` and nothing
otherwise, there is no fatal error, and a lookup of `x` gives `v`. The program
`{ var x = 1; var x = 2; x }` warns once and returns 2. -/
theorem C8_declaration :
    (∀ (x : String) (expr : expression) (s s1 : State) (v : type) (scope : Frame)
        (rest : List Frame),
      Evals expr s (.ok v s1) → s1.ctx.variables_ = scope :: rest →
        ∃ s2 scope2, Evals (.var_decl x expr) s (.ok v s2) ∧
          s2.ctx.variables_ = scope2 :: rest ∧
          Frame.find scope2 x = some v ∧
          (∀ other, other ≠ x → Frame.find scope2 other = Frame.find scope other) ∧
          s2.cout = s1.cout ∧
          ((∃ f ∈ s1.ctx.variables_, Frame.find f x ≠ none) →
            s2.cerr = s1.cerr ++ "Warning: " ++
              ("redeclaration of variable \"" ++ x ++ "\"") ++ "\n") ∧
          ((∀ f ∈ s1.ctx.variables_, Frame.find f x = none) → s2.cerr = s1.cerr) ∧
          (∀ msg s3, ¬ Evals (.var_decl x expr) s (.fatal msg s3)) ∧
          s2.ctx.get_variable x = some v ∧
          Evals (.variable x) s2 (.ok v s2)) ∧
    Evals declare_twice start
      (.ok (.integer_type 2) ⟨⟨[[]]⟩, "", "Warning: redeclaration of variable \"x\"\n"⟩) := by
  refine ⟨?_, ⟨3, rfl, by simp⟩⟩
  intro x expr s s1 v scope rest he hs
  have hev := var_decl_evals x he hs
  have hfind := Frame_find_assign_same scope x v
  have hget : get_scopes (Frame.assign scope x v :: rest) x = some v := by
    have := get_scopes_innermost [] (Frame.assign scope x v) rest x v (by simp) hfind
    simpa using this
  refine ⟨_, Frame.assign scope x v, hev, rfl, hfind,
    fun other hne => Frame_find_assign_other scope x other v hne, rfl, ?_, ?_, ?_, hget, ?_⟩
  · rintro ⟨f, hf, hb⟩
    cases hg : s1.ctx.get_variable x with
    | none => exact absurd ((get_scopes_eq_none _ _).1 hg f hf) hb
    | some w => rfl
  · intro hun
    have hg : s1.ctx.get_variable x = none := (get_scopes_eq_none _ _).2 hun
    simp only [hg]
  · intro msg s3 hf
    have := Evals_unique hev hf
    simp at this
  · refine ⟨1, ?_, by simp⟩
    simp only [value, context.get_variable, hget]

/-- Witness of C8: in the start state, whose only scope is empty, `var x = 7`
returns 7, binds `x` in that scope and writes no warning. -/
theorem C8_declaration_witness :
    Evals (int_lit 7) start (.ok (.integer_type 7) start) ∧
      start.ctx.variables_ = [] :: [] ∧
      ∃ s2 scope2, Evals (.var_decl "x" (int_lit 7)) start (.ok (.integer_type 7) s2) ∧
        s2.ctx.variables_ = scope2 :: [] ∧ Frame.find scope2 "x" = some (.integer_type 7) ∧
        s2.cerr = start.cerr :=
  have h := C8_declaration.1 "x" (int_lit 7) start start (.integer_type 7) [] []
    ⟨1, rfl, by simp⟩ rfl
  ⟨⟨1, rfl, by simp⟩, rfl,
    h.elim fun s2 h2 => h2.elim fun scope2 h3 =>
      ⟨s2, scope2, h3.1, h3.2.1, h3.2.2.1,
        h3.2.2.2.2.2.2.1 (by simp [start, Frame.find])⟩⟩

/-! ## Conversion of text to integer -/

theorem isdigit_not_isspace {c : Char} (h : isdigit c = true) : isspace c = false := by
  by_contra hc
  have hs : isspace c = true := by simpa using hc
  simp only [isspace, Bool.or_eq_true, decide_eq_true_eq] at hs
  rcases hs with ((((hs | hs) | hs) | hs) | hs) | hs <;> subst hs <;> revert h <;> decide

theorem isdigit_ne_sign {c : Char} (h : isdigit c = true) : c ≠ '-' ∧ c ≠ '+' := by
  constructor <;> intro hc <;> subst hc <;> revert h <;> decide

theorem dropWhile_isspace_append (ws xs : List Char) (hws : ∀ c ∈ ws, isspace c = true)
    (hxs : ∀ c ∈ xs.head?, isspace c = false) : (ws ++ xs).dropWhile isspace = xs := by
  induction ws with
  | nil =>
    cases xs with
    | nil => rfl
    | cons x rest => simp [List.dropWhile, hxs x (by simp)]
  | cons w rest ih =>
    simp only [List.cons_append, List.dropWhile, hws w (by simp)]
    exact ih (fun c hc => hws c (by simp [hc]))

theorem takeWhile_isdigit_append (ds rest : List Char) (hds : ∀ c ∈ ds, isdigit c = true)
    (hrest : ∀ c ∈ rest.head?, isdigit c = false) : (ds ++ rest).takeWhile isdigit = ds := by
  induction ds with
  | nil =>
    cases rest with
    | nil => rfl
    | cons x xs => simp [List.takeWhile, hrest x (by simp)]
  | cons d xs ih =>
    simp only [List.cons_append, List.takeWhile, hds d (by simp)]
    exact congrArg (d :: ·) (ih (fun c hc => hds c (by simp [hc])))

/-- What `strtol` reads from a text with an integer prefix. -/
theorem strtol_subject_of_prefix {t : String} {ws sign ds rest : List Char}
    (h : IntegerPrefix t ws sign ds rest) :
    strtol_subject (t.data.dropWhile isspace) = (decide (sign = ['-']), ds) := by
  obtain ⟨ht, hws, hsign, hne, hds, hrest⟩ := h
  obtain ⟨d, ds2, rfl⟩ : ∃ d ds2, ds = d :: ds2 := by
    cases ds with
    | nil => exact absurd rfl hne
    | cons d ds2 => exact ⟨d, ds2, rfl⟩
  have hd : isdigit d = true := hds d (by simp)
  rw [ht, List.append_assoc, List.append_assoc]
  rcases hsign with rfl | rfl | rfl
  · rw [dropWhile_isspace_append ws _ hws
      (by intro c hc; simp at hc; subst hc; exact isdigit_not_isspace hd)]
    have h1 := (isdigit_ne_sign hd).1
    have h2 := (isdigit_ne_sign hd).2
    have := takeWhile_isdigit_append (d :: ds2) rest hds hrest
    simp only [List.nil_append, List.cons_append] at this ⊢
    unfold strtol_subject
    split
    · rename_i heq; cases heq; exact absurd rfl h1
    · rename_i heq; cases heq; exact absurd rfl h2
    · simp [this]
  · rw [dropWhile_isspace_append ws _ hws (by intro c hc; simp at hc; subst hc; decide)]
    have := takeWhile_isdigit_append (d :: ds2) rest hds hrest
    simp only [List.cons_append] at this
    simp [strtol_subject, this]
  · rw [dropWhile_isspace_append ws _ hws (by intro c hc; simp at hc; subst hc; decide)]
    have := takeWhile_isdigit_append (d :: ds2) rest hds hrest
    simp only [List.cons_append] at this
    simp [strtol_subject, this]

theorem stoi_of_prefix {t : String} {ws sign ds rest : List Char}
    (h : IntegerPrefix t ws sign ds rest) :
    stoi t = if inInt32 (signed_value sign ds) then .value (signed_value sign ds)
      else .out_of_range := by
  have hsub := strtol_subject_of_prefix h
  obtain ⟨d, ds2, rfl⟩ : ∃ d ds2, ds = d :: ds2 := by
    cases ds with
    | nil => exact absurd rfl h.2.2.2.1
    | cons d ds2 => exact ⟨d, ds2, rfl⟩
  unfold stoi
  rw [hsub]
  simp only [signed_value, inInt32, decide_eq_true_eq]

theorem head_dropWhile_isdigit (r : List Char) :
    ∀ c ∈ (r.dropWhile isdigit).head?, isdigit c = false := by
  intro c hc
  have h := List.head?_dropWhile_not isdigit r
  rw [Option.mem_def] at hc
  rw [hc] at h
  exact h

theorem strtol_subject_cases (cs : List Char) :
    (∃ r, cs = '-' :: r ∧ strtol_subject cs = (true, r.takeWhile isdigit)) ∨
    (∃ r, cs = '+' :: r ∧ strtol_subject cs = (false, r.takeWhile isdigit)) ∨
    strtol_subject cs = (false, cs.takeWhile isdigit) := by
  unfold strtol_subject
  split <;> simp

theorem stoi_invalid_of_subject {t : String} {neg : Bool}
    (h : strtol_subject (t.data.dropWhile isspace) = (neg, [])) :
    stoi t = .invalid_argument := by
  unfold stoi
  rw [h]

/-- A text that `std::stoi` converts, or finds out of range, has an integer
prefix. -/
theorem prefix_of_stoi {t : String} (h : stoi t ≠ .invalid_argument) :
    ∃ ws sign ds rest, IntegerPrefix t ws sign ds rest := by
  have hsplit : t.data = t.data.takeWhile isspace ++ t.data.dropWhile isspace :=
    (List.takeWhile_append_dropWhile isspace t.data).symm
  have hws : ∀ c ∈ t.data.takeWhile isspace, isspace c = true :=
    fun c hc => List.mem_takeWhile_imp hc
  rcases strtol_subject_cases (t.data.dropWhile isspace) with
    ⟨r, hr, hsub⟩ | ⟨r, hr, hsub⟩ | hsub
  · refine ⟨t.data.takeWhile isspace, ['-'], r.takeWhile isdigit, r.dropWhile isdigit,
      ?_, hws, Or.inr (Or.inr rfl), ?_, fun c hc => List.mem_takeWhile_imp hc,
      head_dropWhile_isdigit r⟩
    · rw [List.append_assoc, List.append_assoc, List.takeWhile_append_dropWhile,
        List.singleton_append, ← hr]
      exact hsplit
    · intro hnil
      rw [hnil] at hsub
      exact h (stoi_invalid_of_subject hsub)
  · refine ⟨t.data.takeWhile isspace, ['+'], r.takeWhile isdigit, r.dropWhile isdigit,
      ?_, hws, Or.inr (Or.inl rfl), ?_, fun c hc => List.mem_takeWhile_imp hc,
      head_dropWhile_isdigit r⟩
    · rw [List.append_assoc, List.append_assoc, List.takeWhile_append_dropWhile,
        List.singleton_append, ← hr]
      exact hsplit
    · intro hnil
      rw [hnil] at hsub
      exact h (stoi_invalid_of_subject hsub)
  · refine ⟨t.data.takeWhile isspace, [], (t.data.dropWhile isspace).takeWhile isdigit,
      (t.data.dropWhile isspace).dropWhile isdigit,
      ?_, hws, Or.inl rfl, ?_, fun c hc => List.mem_takeWhile_imp hc,
      head_dropWhile_isdigit _⟩
    · rw [List.append_assoc, List.append_assoc, List.takeWhile_append_dropWhile,
        List.nil_append]
      exact hsplit
    · intro hnil
      rw [hnil] at hsub
      exact h (stoi_invalid_of_subject hsub)

theorem toint_convert_string (t : String) (s : State) :
    toint_convert (.string_type t) s =
      match stoi t with
      | .value n => .ok (.integer_type n) s
      | _ => __error "cannot conver str to type int" s := rfl

theorem toint_evals {arg : expression} {s s1 : State} {v : type}
    (he : Evals arg s (.ok v s1)) : Evals (.toint_function arg) s (toint_convert v s1) := by
  rw [Evals_after he _ (fun _ v s1 => toint_convert v s1) (fun fuel => by rw [value])
    (fun _ _ => rfl)]
  refine ⟨0, rfl, ?_⟩
  unfold toint_convert
  cases v with
  | unit_type => simp
  | integer_type d => simp
  | string_type t => dsimp only; split <;> simp [__error]

/-- C9, the claim as stated fails. The texts `42abc` and ` 42` are not integer
literals, yet to-integer returns 42 for both; `3000000000` is an integer
literal that fits in 64 bits, yet to-integer fails fatally on it. -/
theorem C9_to_integer_text_counterexample :
    Evals (.toint_function (str_lit "42abc")) start (.ok (.integer_type 42) start) ∧
    Evals (.toint_function (str_lit " 42")) start (.ok (.integer_type 42) start) ∧
    Evals (.toint_function (str_lit "3000000000")) start
      (.fatal "cannot conver str to type int"
        ⟨⟨[[]]⟩, "", "Error: cannot conver str to type int\n"⟩) :=
  ⟨⟨2, by rfl, by simp⟩, ⟨2, by rfl, by simp⟩, ⟨2, by rfl, by simp⟩⟩

/-- C9 as amended. To-integer on a text follows `std::stoi`: when the text
consists of white space, an optional sign, a non-empty run of decimal digits
and a rest that does not continue the run, the result is the signed value of
the digits if that value fits in 32 bits, whatever the rest is, and the fatal
conversion error if it does not fit; a text that has no such beginning is a
fatal conversion error. The node applies this to the value of its argument.
So `42` gives 42 and `x` is the fatal conversion error. -/
theorem C9_to_integer_text :
    (∀ (t : String) (ws sign ds rest : List Char) (s : State),
      IntegerPrefix t ws sign ds rest → inInt32 (signed_value sign ds) →
        toint_convert (.string_type t) s = .ok (.integer_type (signed_value sign ds)) s) ∧
    (∀ (t : String) (ws sign ds rest : List Char) (s : State),
      IntegerPrefix t ws sign ds rest → ¬ inInt32 (signed_value sign ds) →
        toint_convert (.string_type t) s = __error "cannot conver str to type int" s) ∧
    (∀ (t : String) (s : State),
      (¬ ∃ ws sign ds rest, IntegerPrefix t ws sign ds rest) →
        toint_convert (.string_type t) s = __error "cannot conver str to type int" s) ∧
    (∀ (arg : expression) (s s1 : State) (v : type),
      Evals arg s (.ok v s1) → Evals (.toint_function arg) s (toint_convert v s1)) ∧
    (∀ s : State, Evals (.toint_function (str_lit "42")) s (.ok (.integer_type 42) s)) ∧
    (∀ s : State, Evals (.toint_function (str_lit "x")) s
      (__error "cannot conver str to type int" s)) := by
  refine ⟨?_, ?_, ?_, fun arg s s1 v he => toint_evals he,
    fun s => ⟨2, rfl, by simp⟩, fun s => ⟨2, rfl, by simp [__error]⟩⟩
  · intro t ws sign ds rest s hp hr
    rw [toint_convert_string, stoi_of_prefix hp, if_pos hr]
  · intro t ws sign ds rest s hp hr
    rw [toint_convert_string, stoi_of_prefix hp, if_neg hr]
  · intro t s hno
    have : stoi t = .invalid_argument := by
      by_contra hc
      exact hno (prefix_of_stoi hc)
    rw [toint_convert_string, this]

/-- Witness of C9: the text ` -42a` is white space, a sign, the digits `42`
and a rest; to-integer returns -42. -/
theorem C9_to_integer_text_witness :
    IntegerPrefix " -42a" [' '] ['-'] ['4', '2'] ['a'] ∧
      inInt32 (signed_value ['-'] ['4', '2']) ∧
      toint_convert (.string_type " -42a") start = .ok (.integer_type (-42)) start :=
  ⟨by simp [IntegerPrefix, isspace, isdigit], by decide,
    C9_to_integer_text.1 " -42a" [' '] ['-'] ['4', '2'] ['a'] start
      (by simp [IntegerPrefix, isspace, isdigit]) (by decide)⟩

/-! ## Integer arithmetic -/

theorem wrap64_of_inInt64 {n : Int} (h : inInt64 n) : wrap64 n = n := by
  unfold inInt64 INT64_MIN INT64_MAX at h
  unfold wrap64
  omega

theorem tdiv_inInt64 {a b : Int} (ha : inInt64 a) (hb : b ≠ 0)
    (hab : ¬ (a = INT64_MIN ∧ b = -1)) : inInt64 (Int.tdiv a b) := by
  unfold inInt64 INT64_MIN INT64_MAX at *
  have hq : (Int.tdiv a b).natAbs = a.natAbs / b.natAbs := Int.natAbs_tdiv a b
  by_cases h1 : b.natAbs = 1
  · rcases Int.natAbs_eq b with hb1 | hb1
    · rw [h1] at hb1
      have : b = 1 := by simpa using hb1
      subst this
      simp only [Int.tdiv_one]
      exact ha
    · rw [h1] at hb1
      have : b = -1 := by simpa using hb1
      subst this
      have hne : a ≠ -9223372036854775808 := fun h => hab ⟨h, rfl⟩
      have : Int.tdiv a (-1) = -a := by simp [Int.tdiv_neg]
      rw [this]
      omega
  · have h2 : 2 ≤ b.natAbs := by
      have : b.natAbs ≠ 0 := by simpa using hb
      omega
    have h3 : a.natAbs / b.natAbs ≤ a.natAbs / 2 := Nat.div_le_div_left h2 (by decide)
    omega

/-- C10, the claim as stated fails for division. The operands `INT64_MIN` and
`-1` are integers and the divisor is not zero, but the quotient truncated
toward zero, 2^63, is not a signed 64-bit integer: the division is undefined
there and the dispatcher returns no value, in particular not the quotient. -/
theorem C10_integer_arithmetic_counterexample :
    inInt64 INT64_MIN ∧ inInt64 (-1) ∧ (-1 : Int) ≠ 0 ∧
    Int.tdiv INT64_MIN (-1) = 9223372036854775808 ∧
    ¬ inInt64 (Int.tdiv INT64_MIN (-1)) ∧
    builtin_binop_dispatch .DIVIDE (.integer_type INT64_MIN) (.integer_type (-1)) start =
      .undefined ∧
    builtin_binop_dispatch .DIVIDE (.integer_type INT64_MIN) (.integer_type (-1)) start ≠
      .ok (.integer_type (Int.tdiv INT64_MIN (-1))) start := by
  refine ⟨by decide, by decide, by decide, by decide, by decide, by decide, ?_⟩
  decide

theorem dispatch_integer (op : builtin_binop_kind) (a b : Int) (s : State) :
    builtin_binop_dispatch op (.integer_type a) (.integer_type b) s =
      match integer_type_operator op a b with
      | .val v => .ok v s
      | .error msg => __error msg s
      | .undefined => .undefined := rfl

/-- C10 as amended. For integer operands `a` and `b` in the 64-bit range the
dispatcher returns `a + b`, `a - b` and `a * b` whenever that exact result is
in the 64-bit range; it returns the quotient truncated toward zero when `b` is
not zero and the operands are not `INT64_MIN` and `-1`; each of the six
comparisons returns the integer 1 when the relation holds and 0 when it does
not. The state is unchanged. -/
theorem C10_integer_arithmetic (a b : Int) (s : State) (ha : inInt64 a) (_hb : inInt64 b) :
    (inInt64 (a + b) →
      builtin_binop_dispatch .PLUS (.integer_type a) (.integer_type b) s =
        .ok (.integer_type (a + b)) s) ∧
    (inInt64 (a - b) →
      builtin_binop_dispatch .MINUS (.integer_type a) (.integer_type b) s =
        .ok (.integer_type (a - b)) s) ∧
    (inInt64 (a * b) →
      builtin_binop_dispatch .MULTIPLY (.integer_type a) (.integer_type b) s =
        .ok (.integer_type (a * b)) s) ∧
    (b ≠ 0 → ¬ (a = INT64_MIN ∧ b = -1) →
      builtin_binop_dispatch .DIVIDE (.integer_type a) (.integer_type b) s =
        .ok (.integer_type (Int.tdiv a b)) s) ∧
    builtin_binop_dispatch .EQUAL (.integer_type a) (.integer_type b) s =
      .ok (.integer_type (if a = b then 1 else 0)) s ∧
    builtin_binop_dispatch .NOTEQUAL (.integer_type a) (.integer_type b) s =
      .ok (.integer_type (if a ≠ b then 1 else 0)) s ∧
    builtin_binop_dispatch .GREATER (.integer_type a) (.integer_type b) s =
      .ok (.integer_type (if a > b then 1 else 0)) s ∧
    builtin_binop_dispatch .GREATEREQUAL (.integer_type a) (.integer_type b) s =
      .ok (.integer_type (if a ≥ b then 1 else 0)) s ∧
    builtin_binop_dispatch .LESS (.integer_type a) (.integer_type b) s =
      .ok (.integer_type (if a < b then 1 else 0)) s ∧
    builtin_binop_dispatch .LESSEQUAL (.integer_type a) (.integer_type b) s =
      .ok (.integer_type (if a ≤ b then 1 else 0)) s := by
  refine ⟨?_, ?_, ?_, ?_, ?_, ?_, ?_, ?_, ?_, ?_⟩
  · intro h
    rw [dispatch_integer]
    simp only [integer_type_operator, wrap64_of_inInt64 h]
  · intro h
    rw [dispatch_integer]
    simp only [integer_type_operator, wrap64_of_inInt64 h]
  · intro h
    rw [dispatch_integer]
    simp only [integer_type_operator, wrap64_of_inInt64 h]
  · intro h0 hmin
    rw [dispatch_integer]
    simp only [integer_type_operator, if_neg h0, if_neg hmin,
      wrap64_of_inInt64 (tdiv_inInt64 ha h0 hmin)]
  all_goals
    rw [dispatch_integer]
    simp only [integer_type_operator, of_bool, decide_eq_true_eq]

/-- Witness of C10: the operands 7 and -2. -/
theorem C10_integer_arithmetic_witness :
    inInt64 7 ∧ inInt64 (-2) ∧
      builtin_binop_dispatch .DIVIDE (.integer_type 7) (.integer_type (-2)) start =
        .ok (.integer_type (-3)) start ∧
      builtin_binop_dispatch .MULTIPLY (.integer_type 7) (.integer_type (-2)) start =
        .ok (.integer_type (-14)) start :=
  ⟨by decide, by decide,
    (C10_integer_arithmetic 7 (-2) start (by decide) (by decide)).2.2.2.1
      (by decide) (by decide),
    (C10_integer_arithmetic 7 (-2) start (by decide) (by decide)).2.2.1 (by decide)⟩

/-! ## Text operators and truth -/

theorem dispatch_string (op : builtin_binop_kind) (a b : String) (s : State) :
    builtin_binop_dispatch op (.string_type a) (.string_type b) s =
      match string_type_operator op a b with
      | .val v => .ok v s
      | .error msg => __error msg s
      | .undefined => .undefined := rfl

/-- C11 (text concatenation). On two texts the dispatcher's add returns a
value of kind string whose `repr()` is the `repr()` of the first followed by
the `repr()` of the second, and leaves the state alone. Adding in either
grouping gives the same result, and the empty text is a left and a right
identity. -/
theorem C11_text_concatenation :
    (∀ (a b : String) (s : State),
      ∃ v, builtin_binop_dispatch .PLUS (.string_type a) (.string_type b) s = .ok v s ∧
        v.kind = .STRING ∧
        v.repr = (type.string_type a).repr ++ (type.string_type b).repr) ∧
    (∀ (a b c : String) (s : State),
      builtin_binop_dispatch .PLUS (.string_type (a ++ b)) (.string_type c) s =
        builtin_binop_dispatch .PLUS (.string_type a) (.string_type (b ++ c)) s) ∧
    (∀ (a : String) (s : State),
      builtin_binop_dispatch .PLUS (.string_type "") (.string_type a) s =
        .ok (.string_type a) s ∧
      builtin_binop_dispatch .PLUS (.string_type a) (.string_type "") s =
        .ok (.string_type a) s) := by
  refine ⟨fun a b s => ⟨.string_type (a ++ b), rfl, rfl, rfl⟩, fun a b c s => ?_,
    fun a s => ⟨?_, ?_⟩⟩
  · rw [dispatch_string, dispatch_string]
    simp only [string_type_operator, String.append_assoc]
  · rw [dispatch_string]
    simp only [string_type_operator, String.empty_append]
  · rw [dispatch_string]
    simp only [string_type_operator, String.append_empty]

/-- C14 (truth coercion). `to_integer_type` is a total function: it gives 0
for unit, `n` for the integer `n`, and for a text 0 when the text is empty and
1 when it is not. -/
theorem C14_truth_coercion :
    UNIT__.to_integer_type = 0 ∧
    (∀ n : Int, (type.integer_type n).to_integer_type = n) ∧
    (∀ t : String, (type.string_type t).to_integer_type = if t = "" then 0 else 1) ∧
    (∀ t : String, (type.string_type t).to_integer_type = if t.data = [] then 0 else 1) ∧
    (∀ v : type, ∃ n : Int, v.to_integer_type = n) := by
  refine ⟨rfl, fun n => rfl, fun t => ?_, fun t => ?_, fun v => ⟨_, rfl⟩⟩
  · by_cases h : t = "" <;> simp [type.to_integer_type, h]
  · have hd : t.data = [] ↔ t = "" := by
      constructor
      · intro h; exact String.ext h
      · intro h; rw [h]
    by_cases h : t = ""
    · simp [type.to_integer_type, h]
    · have h2 : ¬ t.data = [] := fun hc => h (hd.1 hc)
      simp [type.to_integer_type, h, h2]

/-- The comparison of `std::string` data in the embedding is the
lexicographic order `lex_less`. -/
theorem lt_iff_lex_less : ∀ (as bs : List Char), as < bs ↔ lex_less as bs = true := by
  intro as
  induction as with
  | nil =>
    intro bs
    cases bs with
    | nil => simp [lex_less]
    | cons b bs => simp only [lex_less, iff_true]; exact List.Lex.nil
  | cons a as ih =>
    intro bs
    cases bs with
    | nil => simp [lex_less]
    | cons b bs =>
      simp only [lex_less, Bool.or_eq_true, Bool.and_eq_true, decide_eq_true_eq]
      constructor
      · intro h
        cases h with
        | cons h => exact Or.inr ⟨rfl, (ih bs).1 h⟩
        | rel h => exact Or.inl h
      · rintro (h | ⟨rfl, h⟩)
        · exact List.Lex.rel h
        · exact List.Lex.cons ((ih bs).2 h)

theorem lex_less_trichotomy (as bs : List Char) :
    (lex_less as bs = true ∧ as ≠ bs ∧ lex_less bs as = false) ∨
    (lex_less as bs = false ∧ as = bs ∧ lex_less bs as = false) ∨
    (lex_less as bs = false ∧ as ≠ bs ∧ lex_less bs as = true) := by
  have hn : ∀ xs ys : List Char, lex_less xs ys = false ↔ ¬ xs < ys := by
    intro xs ys; rw [lt_iff_lex_less]; simp
  rcases lt_trichotomy as bs with h | h | h
  · exact Or.inl ⟨(lt_iff_lex_less _ _).1 h, ne_of_lt h, (hn _ _).2 (lt_asymm h)⟩
  · subst h
    exact Or.inr (Or.inl ⟨(hn _ _).2 (lt_irrefl _), rfl, (hn _ _).2 (lt_irrefl _)⟩)
  · exact Or.inr (Or.inr ⟨(hn _ _).2 (lt_asymm h), (ne_of_lt h).symm, (lt_iff_lex_less _ _).1 h⟩)


/-- C12 (text comparison). On two texts each of the six comparison operators
returns the integer 1 when its relation holds between the two character
sequences in lexicographic order and the integer 0 when it does not, and for
every pair exactly one of less, equal and greater returns 1. -/
theorem C12_text_comparison (a b : String) (s : State) :
    builtin_binop_dispatch .EQUAL (.string_type a) (.string_type b) s =
      .ok (.integer_type (if a = b then 1 else 0)) s ∧
    builtin_binop_dispatch .NOTEQUAL (.string_type a) (.string_type b) s =
      .ok (.integer_type (if a ≠ b then 1 else 0)) s ∧
    builtin_binop_dispatch .GREATER (.string_type a) (.string_type b) s =
      .ok (.integer_type (if lex_less b.data a.data then 1 else 0)) s ∧
    builtin_binop_dispatch .GREATEREQUAL (.string_type a) (.string_type b) s =
      .ok (.integer_type (if lex_less b.data a.data ∨ a = b then 1 else 0)) s ∧
    builtin_binop_dispatch .LESS (.string_type a) (.string_type b) s =
      .ok (.integer_type (if lex_less a.data b.data then 1 else 0)) s ∧
    builtin_binop_dispatch .LESSEQUAL (.string_type a) (.string_type b) s =
      .ok (.integer_type (if lex_less a.data b.data ∨ a = b then 1 else 0)) s ∧
    ∃ l e g : Int,
      builtin_binop_dispatch .LESS (.string_type a) (.string_type b) s =
        .ok (.integer_type l) s ∧
      builtin_binop_dispatch .EQUAL (.string_type a) (.string_type b) s =
        .ok (.integer_type e) s ∧
      builtin_binop_dispatch .GREATER (.string_type a) (.string_type b) s =
        .ok (.integer_type g) s ∧
      ((l = 1 ∧ e = 0 ∧ g = 0) ∨ (l = 0 ∧ e = 1 ∧ g = 0) ∨ (l = 0 ∧ e = 0 ∧ g = 1)) := by
  have hab : a = b ↔ a.data = b.data := ⟨fun h => by rw [h], fun h => String.ext h⟩
  have hlt : ∀ xs ys : List Char, decide (xs < ys) = lex_less xs ys := by
    intro xs ys
    cases h : lex_less xs ys with
    | true => exact decide_eq_true ((lt_iff_lex_less xs ys).2 h)
    | false =>
      exact decide_eq_false (fun hc => by rw [(lt_iff_lex_less xs ys).1 hc] at h; cases h)
  have hE : builtin_binop_dispatch .EQUAL (.string_type a) (.string_type b) s =
      .ok (.integer_type (if a = b then 1 else 0)) s := by
    rw [dispatch_string]
    simp only [string_type_operator, of_bool, decide_eq_true_eq]
  have hG : builtin_binop_dispatch .GREATER (.string_type a) (.string_type b) s =
      .ok (.integer_type (if lex_less b.data a.data then 1 else 0)) s := by
    rw [dispatch_string]
    simp only [string_type_operator, of_bool, hlt]
  have hL : builtin_binop_dispatch .LESS (.string_type a) (.string_type b) s =
      .ok (.integer_type (if lex_less a.data b.data then 1 else 0)) s := by
    rw [dispatch_string]
    simp only [string_type_operator, of_bool, hlt]
  refine ⟨hE, ?_, hG, ?_, hL, ?_, _, _, _, hL, hE, hG, ?_⟩
  · rw [dispatch_string]
    simp only [string_type_operator, of_bool, decide_eq_true_eq]
  · rw [dispatch_string]
    simp only [string_type_operator, of_bool, decide_not, hlt]
    rcases lex_less_trichotomy a.data b.data with ⟨h1, h2, h3⟩ | ⟨h1, h2, h3⟩ | ⟨h1, h2, h3⟩
    · have : ¬ a = b := fun h => h2 (hab.1 h)
      simp [h1, h3, this]
    · obtain rfl := hab.2 h2
      simp [h1]
    · simp [h1, h3]
  · rw [dispatch_string]
    simp only [string_type_operator, of_bool, decide_not, hlt]
    rcases lex_less_trichotomy a.data b.data with ⟨h1, h2, h3⟩ | ⟨h1, h2, h3⟩ | ⟨h1, h2, h3⟩
    · simp [h1, h3]
    · obtain rfl := hab.2 h2
      simp [h1]
    · have : ¬ a = b := fun h => h2 (hab.1 h)
      simp [h1, h3, this]
  · rcases lex_less_trichotomy a.data b.data with ⟨h1, h2, h3⟩ | ⟨h1, h2, h3⟩ | ⟨h1, h2, h3⟩
    · have : ¬ a = b := fun h => h2 (hab.1 h)
      simp [h1, h3, this]
    · obtain rfl := hab.2 h2
      simp [h1]
    · have : ¬ a = b := fun h => h2 (hab.1 h)
      simp [h1, h3, this]

/-! ## The output node -/

theorem print_loop_runs (fuel : Nat) :
    ∀ (es : List expression) (s : State) (v : type) (s2 : State),
      print_loop (value fuel) es s = .ok v s2 → ∃ vs, PrintRuns es s vs s2 ∧ v = UNIT__ := by
  intro es
  induction es with
  | nil =>
    intro s v s2 h
    simp only [print_loop, Res.ok.injEq] at h
    exact ⟨[], ⟨rfl, h.2.symm⟩, h.1.symm⟩
  | cons e rest ih =>
    intro s v s2 h
    simp only [print_loop, Res_bind_eq_ok] at h
    obtain ⟨v1, s1, h1, h2⟩ := h
    obtain ⟨vs1, h3, h4⟩ := ih _ _ _ h2
    exact ⟨v1 :: vs1, ⟨v1, s1, vs1, ⟨fuel, h1, by simp⟩, rfl, h3⟩, h4⟩

theorem PrintRuns_loop : ∀ (es : List expression) (s : State) (vs : List type) (s2 : State),
    PrintRuns es s vs s2 → ∃ fuel, ∀ m, fuel ≤ m →
      print_loop (value m) es s = .ok UNIT__ s2 := by
  intro es
  induction es with
  | nil =>
    intro s vs s2 h
    obtain ⟨_, h2⟩ := h
    subst h2
    exact ⟨0, fun m _ => rfl⟩
  | cons e rest ih =>
    intro s vs s2 h
    obtain ⟨v, s1, vs1, ⟨n1, h1, _⟩, _, h3⟩ := h
    obtain ⟨n2, h4⟩ := ih _ _ _ h3
    refine ⟨max n1 n2, fun m hm => ?_⟩
    have hv : value m e s = .ok v s1 := by
      rw [value_stable (le_trans (le_max_left _ _) hm) e s (by rw [h1]; simp), h1]
    simp only [print_loop, hv, Res.bind]
    exact h4 m (le_trans (le_max_right _ _) hm)

theorem PrintRuns_length : ∀ (es : List expression) (s : State) (vs : List type) (s2 : State),
    PrintRuns es s vs s2 → vs.length = es.length := by
  intro es
  induction es with
  | nil => intro s vs s2 h; rw [h.1]; rfl
  | cons e rest ih =>
    intro s vs s2 h
    obtain ⟨v, s1, vs1, _, h2, h3⟩ := h
    rw [h2, List.length_cons, List.length_cons, ih _ _ _ h3]

theorem print_evals_iff (exprs : List expression) (s : State) (v : type) (s3 : State) :
    Evals (.print_function exprs) s (.ok v s3) ↔
      ∃ vs s2, PrintRuns exprs s vs s2 ∧ v = UNIT__ ∧
        s3 = { s2 with cout := s2.cout ++ "\n" } := by
  constructor
  · rintro ⟨fuel, h, _⟩
    cases fuel with
    | zero => simp [value] at h
    | succ n =>
      simp only [value, Res_bind_eq_ok, Res.ok.injEq] at h
      obtain ⟨v1, s1, h1, h2, h3⟩ := h
      obtain ⟨vs, h4, _⟩ := print_loop_runs n _ _ _ _ h1
      exact ⟨vs, s1, h4, h2.symm, h3.symm⟩
  · rintro ⟨vs, s2, h1, h2, h3⟩
    obtain ⟨fuel, hf⟩ := PrintRuns_loop _ _ _ _ h1
    refine ⟨fuel + 1, ?_, by simp⟩
    simp only [value, hf fuel (le_refl _), Res.bind, h2, h3]

theorem cout_grows_refl (a : String) : ∃ out, a = a ++ out :=
  ⟨"", (String.append_empty a).symm⟩

theorem cout_grows_trans {a b c : String} (h1 : ∃ out, b = a ++ out)
    (h2 : ∃ out, c = b ++ out) : ∃ out, c = a ++ out := by
  obtain ⟨o1, rfl⟩ := h1
  obtain ⟨o2, rfl⟩ := h2
  exact ⟨o1 ++ o2, String.append_assoc a o1 o2⟩

theorem print_loop_cout {ev : expression → State → Res}
    (hev : ∀ e s v s2, ev e s = .ok v s2 → ∃ out, s2.cout = s.cout ++ out) :
    ∀ (es : List expression) (s : State) (v : type) (s2 : State),
      print_loop ev es s = .ok v s2 → ∃ out, s2.cout = s.cout ++ out := by
  intro es
  induction es with
  | nil =>
    intro s v s2 h
    simp only [print_loop, Res.ok.injEq] at h
    rw [← h.2]
    exact cout_grows_refl _
  | cons e rest ih =>
    intro s v s2 h
    simp only [print_loop, Res_bind_eq_ok] at h
    obtain ⟨v1, s1, h1, h2⟩ := h
    have h3 := ih { s1 with cout := s1.cout ++ v1.repr } _ _ h2
    exact cout_grows_trans (cout_grows_trans (hev _ _ _ _ h1) ⟨v1.repr, rfl⟩) h3

theorem expr_list_loop_cout {ev : expression → State → Res}
    (hev : ∀ e s v s2, ev e s = .ok v s2 → ∃ out, s2.cout = s.cout ++ out) :
    ∀ (es : List expression) (last : type) (s : State) (v : type) (s2 : State),
      expr_list_loop ev es last s = .ok v s2 → ∃ out, s2.cout = s.cout ++ out := by
  intro es
  induction es with
  | nil =>
    intro last s v s2 h
    simp only [expr_list_loop, Res.ok.injEq] at h
    rw [← h.2]
    exact cout_grows_refl _
  | cons e rest ih =>
    intro last s v s2 h
    simp only [expr_list_loop, Res_bind_eq_ok] at h
    obtain ⟨v1, s1, h1, h2⟩ := h
    exact cout_grows_trans (hev _ _ _ _ h1) (ih _ _ _ _ h2)

/-- A call of `value` that returns has only appended to `std::cout`. -/
theorem value_cout : ∀ (fuel : Nat) (e : expression) (s : State) (v : type) (s2 : State),
    value fuel e s = .ok v s2 → ∃ out, s2.cout = s.cout ++ out := by
  intro fuel
  induction fuel with
  | zero => intro e s v s2 h; simp [value] at h
  | succ n ih =>
    intro e s v s2 h
    cases e with
    | literal w => simp [value] at h; rw [← h.2]; exact cout_grows_refl _
    | print_function exprs =>
      simp only [value, Res_bind_eq_ok] at h
      obtain ⟨v1, s1, h1, h2⟩ := h
      cases h2
      exact cout_grows_trans (print_loop_cout ih _ _ _ _ h1) ⟨"\n", rfl⟩
    | function_call name args => simp [value] at h; rw [← h.2]; exact cout_grows_refl _
    | tostr_function arg =>
      simp only [value, Res_bind_eq_ok] at h
      obtain ⟨v1, s1, h1, h2⟩ := h
      cases h2
      exact ih _ _ _ _ h1
    | toint_function arg =>
      simp only [value, Res_bind_eq_ok] at h
      obtain ⟨v1, s1, h1, h2⟩ := h
      rw [toint_convert_ok h2]
      exact ih _ _ _ _ h1
    | if_expression cond then_ otherwise =>
      simp only [value, Res_bind_eq_ok] at h
      obtain ⟨c, s1, h1, h2⟩ := h
      refine cout_grows_trans (ih _ _ _ _ h1) ?_
      split at h2
      · exact ih _ _ _ _ h2
      · cases otherwise with
        | none => cases h2; exact cout_grows_refl _
        | some e => exact ih _ _ _ _ h2
    | until_statement cond body =>
      simp only [value, Res_bind_eq_ok] at h
      obtain ⟨c, s1, h1, h2⟩ := h
      refine cout_grows_trans (ih _ _ _ _ h1) ?_
      split at h2
      · rw [Res_bind_eq_ok] at h2
        obtain ⟨b, s3, h3, h4⟩ := h2
        exact cout_grows_trans (ih _ _ _ _ h3) (ih _ _ _ _ h4)
      · cases h2; exact cout_grows_refl _
    | var_decl var_name expr =>
      simp only [value, Res_bind_eq_ok] at h
      obtain ⟨v1, s1, h1, h2⟩ := h
      refine cout_grows_trans (ih _ _ _ _ h1) ?_
      cases hg : s1.ctx.get_variable var_name with
      | none =>
        rw [hg] at h2
        dsimp only at h2
        split at h2
        · simp at h2
        · cases h2; exact cout_grows_refl _
      | some w =>
        rw [hg] at h2
        dsimp only at h2
        split at h2
        · simp at h2
        · cases h2; exact cout_grows_refl _
    | essignment_expression var_name expr =>
      simp only [value, Res_bind_eq_ok] at h
      obtain ⟨v1, s1, h1, h2⟩ := h
      refine cout_grows_trans (ih _ _ _ _ h1) ?_
      split at h2
      · simp [__error] at h2
      · cases h2; exact cout_grows_refl _
    | «variable» name =>
      simp only [value] at h
      split at h
      · simp [__error] at h
      · cases h; exact cout_grows_refl _
    | expr_list exprs =>
      simp only [value, Res_bind_eq_ok] at h
      obtain ⟨v1, s1, h1, h2⟩ := h
      have hk := expr_list_loop_cout ih _ _ _ _ _ h1
      split at h2
      · simp at h2
      · cases h2; exact hk
    | builtin_binop_function op fst snd =>
      simp only [value, Res_bind_eq_ok] at h
      obtain ⟨a, s1, h1, b, s3, h3, h4⟩ := h
      rw [(builtin_binop_dispatch_ok h4).1]
      exact cout_grows_trans (ih _ _ _ _ h1) (ih _ _ _ _ h3)

theorem PrintRuns_trace : ∀ (es : List expression) (s : State) (vs : List type) (s2 : State),
    PrintRuns es s vs s2 → ∃ outs, PrintTrace es s vs outs s2 := by
  intro es
  induction es with
  | nil => intro s vs s2 h; exact ⟨[], h.1, rfl, h.2⟩
  | cons e rest ih =>
    intro s vs s2 h
    obtain ⟨v, s1, vs1, he, hvs, hrest⟩ := h
    obtain ⟨outs1, h1⟩ := ih _ _ _ hrest
    obtain ⟨fuel, hf, _⟩ := he
    obtain ⟨out, hout⟩ := value_cout fuel e s v s1 hf
    exact ⟨out :: outs1, v, s1, out, vs1, outs1, ⟨fuel, hf, by simp⟩, hout, hvs, rfl, h1⟩

theorem PrintTrace_runs : ∀ (es : List expression) (s : State) (vs : List type)
    (outs : List String) (s2 : State),
    PrintTrace es s vs outs s2 → PrintRuns es s vs s2 := by
  intro es
  induction es with
  | nil => intro s vs outs s2 h; exact ⟨h.1, h.2.2⟩
  | cons e rest ih =>
    intro s vs outs s2 h
    obtain ⟨v, s1, out, vs1, outs1, he, _, hvs, _, hrest⟩ := h
    exact ⟨v, s1, vs1, he, hvs, ih _ _ _ _ hrest⟩

/-- Along a run of the arguments of an output node, `std::cout` grows by what
each argument wrote followed by the `repr()` of its value, in list order. -/
theorem PrintTrace_cout : ∀ (es : List expression) (s : State) (vs : List type)
    (outs : List String) (s2 : State),
    PrintTrace es s vs outs s2 →
      s2.cout = s.cout ++ interleaved outs vs ∧ outs.length = vs.length := by
  intro es
  induction es with
  | nil =>
    intro s vs outs s2 h
    obtain ⟨h1, h2, h3⟩ := h
    subst h1 h2 h3
    exact ⟨(String.append_empty _).symm, rfl⟩
  | cons e rest ih =>
    intro s vs outs s2 h
    obtain ⟨v, s1, out, vs1, outs1, _, hout, hvs, houts, hrest⟩ := h
    obtain ⟨h1, h2⟩ := ih _ _ _ _ hrest
    subst hvs houts
    refine ⟨?_, by simp [h2]⟩
    rw [h1]
    simp only [hout, interleaved, String.append_assoc]

theorem interleaved_quiet : ∀ (outs : List String) (vs : List type),
    outs.length = vs.length → (∀ o ∈ outs, o = "") → interleaved outs vs = renders vs := by
  intro outs
  induction outs with
  | nil =>
    intro vs hl _
    cases vs with
    | nil => rfl
    | cons v vs => simp at hl
  | cons o outs ih =>
    intro vs hl hq
    cases vs with
    | nil => simp at hl
    | cons v vs =>
      have ho : o = "" := hq o (by simp)
      subst ho
      simp only [interleaved, renders, String.empty_append]
      rw [ih vs (by simpa using hl) (fun x hx => hq x (by simp [hx]))]

/-- C13, the claim as stated fails. In `print(print("a"))` the one argument
evaluates normally to `UNIT__`, whose `repr()` is `T`, after writing `a` and a
newline itself; the output channel grows by `a`, newline, `T`, newline, not
by `T` and a newline alone. -/
theorem C13_output_builtin_counterexample :
    Evals (print_str "a") start (.ok UNIT__ ⟨⟨[[]]⟩, "a\n", ""⟩) ∧
    Evals print_print_a start (.ok UNIT__ ⟨⟨[[]]⟩, "a\nT\n", ""⟩) ∧
    "a\nT\n" ≠ start.cout ++ renders [UNIT__] ++ "\n" ∧
    ¬ Evals print_print_a start
      (.ok UNIT__ { start with cout := start.cout ++ renders [UNIT__] ++ "\n" }) := by
  have h : Evals print_print_a start (.ok UNIT__ ⟨⟨[[]]⟩, "a\nT\n", ""⟩) :=
    ⟨3, by rfl, by simp⟩
  refine ⟨⟨2, by rfl, by simp⟩, h, by decide, fun h2 => ?_⟩
  exact absurd (Evals_unique h h2) (by decide)

/-- C13 as amended. When the arguments of an output node evaluate normally in
list order to the values `vs`, the node writes the `repr()` of each value to
`std::cout` right after the evaluation of its argument, then one newline, and
returns `UNIT__`: the channel grows by exactly what each argument wrote itself
followed by the `repr()` of its value, argument after argument, and the
newline. When no argument writes to the channel this is exactly the `repr()`
of the values one after the other, with nothing in between, and the newline.
The node returns in no other way, and with no argument it writes the newline
alone. -/
theorem C13_output_builtin :
    (∀ (exprs : List expression) (s : State) (vs : List type) (s2 : State),
      PrintRuns exprs s vs s2 → ∃ outs, PrintTrace exprs s vs outs s2) ∧
    (∀ (exprs : List expression) (s : State) (vs : List type) (outs : List String)
        (s2 : State),
      PrintTrace exprs s vs outs s2 →
        Evals (.print_function exprs) s
          (.ok UNIT__ { s2 with cout := s.cout ++ interleaved outs vs ++ "\n" })) ∧
    (∀ (exprs : List expression) (s : State) (vs : List type) (outs : List String)
        (s2 : State),
      PrintTrace exprs s vs outs s2 → (∀ o ∈ outs, o = "") →
        Evals (.print_function exprs) s
          (.ok UNIT__ { s2 with cout := s.cout ++ renders vs ++ "\n" })) ∧
    (∀ (exprs : List expression) (s : State) (v : type) (s3 : State),
      Evals (.print_function exprs) s (.ok v s3) →
        ∃ vs outs s2, PrintTrace exprs s vs outs s2 ∧ vs.length = exprs.length ∧
          v = UNIT__ ∧ s3 = { s2 with cout := s.cout ++ interleaved outs vs ++ "\n" }) ∧
    (∀ s : State,
      Evals (.print_function []) s (.ok UNIT__ { s with cout := s.cout ++ "\n" })) := by
  have hmain : ∀ (exprs : List expression) (s : State) (vs : List type)
      (outs : List String) (s2 : State), PrintTrace exprs s vs outs s2 →
      Evals (.print_function exprs) s
        (.ok UNIT__ { s2 with cout := s.cout ++ interleaved outs vs ++ "\n" }) := by
    intro exprs s vs outs s2 h
    have hc := (PrintTrace_cout _ _ _ _ _ h).1
    rw [← hc]
    exact (print_evals_iff _ _ _ _).2 ⟨vs, s2, PrintTrace_runs _ _ _ _ _ h, rfl, rfl⟩
  refine ⟨PrintRuns_trace, hmain, ?_, ?_, fun s => ⟨1, rfl, by simp⟩⟩
  · intro exprs s vs outs s2 h hq
    have := hmain exprs s vs outs s2 h
    rwa [interleaved_quiet outs vs (PrintTrace_cout _ _ _ _ _ h).2 hq] at this
  · intro exprs s v s3 h
    obtain ⟨vs, s2, h1, h2, h3⟩ := (print_evals_iff _ _ _ _).1 h
    obtain ⟨outs, ht⟩ := PrintRuns_trace _ _ _ _ h1
    refine ⟨vs, outs, s2, ht, PrintRuns_length _ _ _ _ h1, h2, ?_⟩
    rw [h3, (PrintTrace_cout _ _ _ _ _ ht).1]

/-- Witness of C13: in `print(var y = 1, y)` neither argument writes to the
channel, the first one changes the context; the node writes `11` and a
newline. -/
theorem C13_output_builtin_witness :
    PrintTrace [.var_decl "y" (int_lit 1), .variable "y"] start
        [.integer_type 1, .integer_type 1] ["", ""]
        ⟨⟨[[("y", .integer_type 1)]]⟩, "11", ""⟩ ∧
      Evals print_decl_y start
        (.ok UNIT__ ⟨⟨[[("y", .integer_type 1)]]⟩, "11\n", ""⟩) :=
  have h : PrintTrace [.var_decl "y" (int_lit 1), .variable "y"] start
      [.integer_type 1, .integer_type 1] ["", ""]
      ⟨⟨[[("y", .integer_type 1)]]⟩, "11", ""⟩ :=
    ⟨.integer_type 1, ⟨⟨[[("y", .integer_type 1)]]⟩, "", ""⟩, "", [.integer_type 1], [""],
      ⟨2, by rfl, by simp⟩, by decide, rfl, rfl,
      .integer_type 1, ⟨⟨[[("y", .integer_type 1)]]⟩, "1", ""⟩, "", [], [],
      ⟨1, by rfl, by simp⟩, by decide, rfl, rfl, rfl, rfl, rfl⟩
  ⟨h, C13_output_builtin.2.2.1 _ start _ _ _ h (by decide)⟩

/-! ## The global scope -/

theorem set_global_variable_append (pre : List Frame) (last : Frame) (name : String)
    (v : type) :
    (context.mk (pre ++ [last])).set_global_variable name v =
      some ⟨pre ++ [Frame.assign last name v]⟩ := by
  simp [context.set_global_variable]

/-- C15, the claim as stated fails. The constructor `context()` builds
`variables_` with zero scopes, not one, and `set_global_variable` on the new
context takes `back()` of an empty list, which is undefined. -/
theorem C15_global_frame_counterexample :
    context.init.variables_.length = 0 ∧
    context.init.variables_.length ≠ 1 ∧
    context.init.set_global_variable "g" (.integer_type 1) = none := by
  decide

/-- C15 as amended. A newly constructed context has no scope; after one
`new_scope` it has exactly one. `set_global_variable` writes the binding into
the last (outermost) scope of a context that has one, and on a context with
exactly one scope it is defined, keeps the single scope and a following
`get_variable` of the name returns the value; this holds in particular for a
new context after one `new_scope`. -/
theorem C15_global_frame :
    context.init.variables_ = [] ∧
    context.init.new_scope.variables_.length = 1 ∧
    (∀ (pre : List Frame) (last : Frame) (name : String) (v : type),
      (context.mk (pre ++ [last])).set_global_variable name v =
        some ⟨pre ++ [Frame.assign last name v]⟩) ∧
    (∀ (ctx : context) (name : String) (v : type), ctx.variables_.length = 1 →
      ∃ ctx2, ctx.set_global_variable name v = some ctx2 ∧
        ctx2.variables_.length = 1 ∧ ctx2.get_variable name = some v) ∧
    (∀ (name : String) (v : type),
      ∃ ctx2, context.init.new_scope.set_global_variable name v = some ctx2 ∧
        ctx2.get_variable name = some v) := by
  have h1 : ∀ (scope : Frame) (name : String) (v : type),
      (context.mk [scope]).set_global_variable name v = some ⟨[Frame.assign scope name v]⟩ ∧
      (context.mk [Frame.assign scope name v]).get_variable name = some v := by
    intro scope name v
    refine ⟨set_global_variable_append [] scope name v, ?_⟩
    exact get_scopes_innermost [] _ [] name v (by simp) (Frame_find_assign_same scope name v)
  refine ⟨rfl, rfl, set_global_variable_append, ?_, fun name v => ⟨_, (h1 [] name v).1,
    (h1 [] name v).2⟩⟩
  intro ctx name v hlen
  obtain ⟨vars⟩ := ctx
  match vars, hlen with
  | [scope], _ => exact ⟨_, (h1 scope name v).1, rfl, (h1 scope name v).2⟩

/-- Witness of C15: on the context whose single scope is empty, declaring the
global `g` is defined and `g` is found afterwards. -/
theorem C15_global_frame_witness :
    (context.mk [[]]).variables_.length = 1 ∧
      ∃ ctx2, (context.mk [[]]).set_global_variable "g" (.integer_type 1) = some ctx2 ∧
        ctx2.variables_.length = 1 ∧ ctx2.get_variable "g" = some (.integer_type 1) :=
  ⟨rfl, C15_global_frame.2.2.2.1 ⟨[[]]⟩ "g" (.integer_type 1) rfl⟩

/-! ## Operator names -/

/-- C16 (type-mismatch message), the code at the failing input.
`builtin_binop_kind_to_string` returns a name for the six comparison kinds only
(one of them misspelt); for `PLUS`, `MINUS`, `MULTIPLY` and `DIVIDE` it returns
nothing. The program `1 + "a"` therefore reaches undefined behaviour while the
message is being built and no message naming `plus`, `integer` and `string` is
written; with `==` in place of `+` the fatal error names the operator and both
kinds. -/
theorem C16_type_mismatch_message (s : State) :
    builtin_binop_kind_to_string .PLUS = none ∧
    builtin_binop_kind_to_string .MINUS = none ∧
    builtin_binop_kind_to_string .MULTIPLY = none ∧
    builtin_binop_kind_to_string .DIVIDE = none ∧
    builtin_binop_kind_to_string .GREATEREQUAL = some "reater or equal" ∧
    Evals one_plus_a s .undefined ∧
    Evals (.builtin_binop_function .EQUAL (int_lit 1) (str_lit "a")) s
      (.fatal "Cannot performe equal operation on type integer and type string"
        { s with cerr := s.cerr ++ "Error: " ++
          "Cannot performe equal operation on type integer and type string" ++ "\n" }) :=
  ⟨rfl, rfl, rfl, rfl, rfl, ⟨2, rfl, by simp⟩, ⟨2, rfl, by simp⟩⟩

/-! ## Truth of a condition -/

theorem if_value_succ (cond then_ : expression) (otherwise : Option expression) (s : State)
    (fuel : Nat) :
    value (fuel + 1) (.if_expression cond then_ otherwise) s =
      (value fuel cond s).bind (fun c s1 =>
        if c.to_integer_type > 0 then value fuel then_ s1
        else
          match otherwise with
          | some e => value fuel e s1
          | none => .ok UNIT__ s1) := by
  rw [value]

theorem until_value_succ (cond body : expression) (s : State) (fuel : Nat) :
    value (fuel + 1) (.until_statement cond body) s =
      (value fuel cond s).bind (fun c s1 =>
        if c.to_integer_type > 0 then
          (value fuel body s1).bind fun _ s2 => value fuel (.until_statement cond body) s2
        else .ok UNIT__ s1) := by
  rw [value]

/-- How a conditional ends once its condition has returned `c` in state
`s1`. -/
theorem if_evals {cond then_ : expression} {otherwise : Option expression} {s s1 : State}
    {c : type} (hc : Evals cond s (.ok c s1)) (r : Res) :
    Evals (.if_expression cond then_ otherwise) s r ↔
      if c.to_integer_type > 0 then Evals then_ s1 r
      else
        match otherwise with
        | some e => Evals e s1 r
        | none => r = .ok UNIT__ s1 := by
  rw [Evals_after hc _ _ (if_value_succ cond then_ otherwise s) ?_ r]
  · by_cases hpos : c.to_integer_type > 0
    · simp only [hpos, if_true]; rfl
    · simp only [hpos, if_false]
      cases otherwise with
      | some e => rfl
      | none =>
        constructor
        · rintro ⟨_, h, _⟩; exact h.symm
        · intro h; exact ⟨0, h.symm, by rw [h]; simp⟩
  · intro fuel h
    dsimp only at h ⊢
    split
    · rw [if_pos (by assumption)] at h; exact value_succ _ _ _ h
    · rw [if_neg (by assumption)] at h
      cases otherwise with
      | some e => exact value_succ _ _ _ h
      | none => rfl

/-- How a loop ends once its condition has returned `c` in state `s1`: with a
truth that is not positive the loop is over; otherwise the body runs, and the
loop starts again from the state the body leaves or ends as the body fails. -/
theorem until_evals {cond body : expression} {s s1 : State} {c : type}
    (hc : Evals cond s (.ok c s1)) (r : Res) :
    Evals (.until_statement cond body) s r ↔
      if c.to_integer_type > 0 then
        (∃ v s2, Evals body s1 (.ok v s2) ∧ Evals (.until_statement cond body) s2 r) ∨
        (Evals body s1 r ∧ ∀ v s2, r ≠ .ok v s2)
      else r = .ok UNIT__ s1 := by
  rw [Evals_after hc _ _ (until_value_succ cond body s) ?_ r]
  · by_cases hpos : c.to_integer_type > 0
    · simp only [hpos, if_true]
      constructor
      · rintro ⟨fuel, h, hr⟩
        cases hb : value fuel body s1 with
        | ok v s2 =>
          rw [hb] at h
          exact Or.inl ⟨v, s2, ⟨fuel, hb, by simp⟩, ⟨fuel, h, hr⟩⟩
        | fatal msg s2 =>
          rw [hb] at h
          subst h
          exact Or.inr ⟨⟨fuel, hb, by simp [Res.bind]⟩, by simp [Res.bind]⟩
        | undefined =>
          rw [hb] at h
          subst h
          exact Or.inr ⟨⟨fuel, hb, by simp [Res.bind]⟩, by simp [Res.bind]⟩
        | timeout =>
          rw [hb] at h
          exact absurd h.symm hr
      · rintro (⟨v, s2, ⟨a, ha, _⟩, ⟨b, hb, hr⟩⟩ | ⟨⟨a, ha, hr⟩, hno⟩)
        · refine ⟨max a b, ?_, hr⟩
          rw [value_stable (le_max_left a b) body s1 (by rw [ha]; simp), ha]
          show value (max a b) (.until_statement cond body) s2 = r
          rw [value_stable (le_max_right a b) _ s2 (by rw [hb]; exact hr), hb]
        · refine ⟨a, ?_, hr⟩
          rw [ha]
          cases r with
          | ok v s2 => exact absurd rfl (hno v s2)
          | fatal msg s2 => rfl
          | undefined => rfl
          | timeout => rfl
    · simp only [hpos, if_false]
      constructor
      · rintro ⟨_, h, _⟩; exact h.symm
      · intro h; exact ⟨0, h.symm, by rw [h]; simp⟩
  · intro fuel h
    dsimp only at h ⊢
    split
    · rw [if_pos (by assumption)] at h
      exact Res_bind_stable h (value_succ _ _ _) (fun _ _ _ hk => value_succ _ _ _ hk)
    · rfl


/-- C17, the claim as stated fails. The integer -1 is not zero, yet the
conditional with condition `-1` evaluates its otherwise-branch and writes `b`,
and the loop with condition `-1` ends at once without running its body. -/
theorem C17_nonzero_is_true_counterexample :
    (-1 : Int) ≠ 0 ∧
    Evals if_minus_one_a_b start (.ok UNIT__ ⟨⟨[[]]⟩, "b\n", ""⟩) ∧
    Evals until_minus_one_a start (.ok UNIT__ start) :=
  ⟨by decide, ⟨3, by rfl, by simp⟩, ⟨2, by rfl, by simp⟩⟩

/-- C17 as amended. When the condition evaluates normally to the integer `n`,
leaving state `s1`: for `n > 0` a conditional ends exactly as its then-branch
ends from `s1`, and a loop runs its body from `s1`, starting again from the
state the body leaves or ending as the body fails; for `n ≤ 0`, zero and
negative alike, a conditional ends as its otherwise-branch ends, or returns
`UNIT__` when it has none, and a loop returns `UNIT__` without running its
body. -/
theorem C17_positive_is_true (cond : expression) (s s1 : State) (n : Int)
    (hc : Evals cond s (.ok (.integer_type n) s1)) :
    (n > 0 → ∀ (then_ : expression) (otherwise : Option expression) (r : Res),
      Evals (.if_expression cond then_ otherwise) s r ↔ Evals then_ s1 r) ∧
    (n > 0 → ∀ (body : expression) (r : Res),
      Evals (.until_statement cond body) s r ↔
        ((∃ v s2, Evals body s1 (.ok v s2) ∧ Evals (.until_statement cond body) s2 r) ∨
          (Evals body s1 r ∧ ∀ v s2, r ≠ .ok v s2))) ∧
    (n ≤ 0 → ∀ (then_ e : expression) (r : Res),
      Evals (.if_expression cond then_ (some e)) s r ↔ Evals e s1 r) ∧
    (n ≤ 0 → ∀ (then_ : expression) (r : Res),
      Evals (.if_expression cond then_ none) s r ↔ r = .ok UNIT__ s1) ∧
    (n ≤ 0 → ∀ (body : expression) (r : Res),
      Evals (.until_statement cond body) s r ↔ r = .ok UNIT__ s1) := by
  have ht : (type.integer_type n).to_integer_type = n := rfl
  refine ⟨fun hn then_ otherwise r => ?_, fun hn body r => ?_, fun hn then_ e r => ?_,
    fun hn then_ r => ?_, fun hn body r => ?_⟩
  · rw [if_evals hc, ht, if_pos hn]
  · rw [until_evals hc, ht, if_pos hn]
  · rw [if_evals hc, ht, if_neg (not_lt.2 hn)]
  · rw [if_evals hc, ht, if_neg (not_lt.2 hn)]
  · rw [until_evals hc, ht, if_neg (not_lt.2 hn)]

/-- Witness of C17: the condition `-1` evaluates to the integer -1, which is
not positive, so the loop over `print("a")` returns at once. -/
theorem C17_positive_is_true_witness :
    Evals (int_lit (-1)) start (.ok (.integer_type (-1)) start) ∧
      Evals (.until_statement (int_lit (-1)) (print_str "a")) start (.ok UNIT__ start) ∧
      Evals (.if_expression (int_lit 2) (print_str "a") none) start
        (.ok UNIT__ ⟨⟨[[]]⟩, "a\n", ""⟩) :=
  ⟨⟨1, rfl, by simp⟩,
    ((C17_positive_is_true (int_lit (-1)) start start (-1) ⟨1, rfl, by simp⟩).2.2.2.2
      (by decide) (print_str "a") _).2 rfl,
    ((C17_positive_is_true (int_lit 2) start start 2 ⟨1, rfl, by simp⟩).1
      (by decide) (print_str "a") none _).2 ⟨2, by rfl, by simp⟩⟩

/-! ## Names bound in the scopes -/

theorem SameNames_refl (f : Frame) : SameNames f f := fun _ => Iff.rfl

theorem SameNames_trans {f g h : Frame} (h1 : SameNames f g) (h2 : SameNames g h) :
    SameNames f h := fun name => (h1 name).trans (h2 name)

theorem SameNames_all_refl (fs : List Frame) : List.Forall₂ SameNames fs fs := by
  induction fs with
  | nil => exact .nil
  | cons f rest ih => exact .cons (SameNames_refl f) ih

theorem SameNames_all_trans : ∀ {fs gs hs : List Frame},
    List.Forall₂ SameNames fs gs → List.Forall₂ SameNames gs hs →
      List.Forall₂ SameNames fs hs := by
  intro fs gs hs h1
  induction h1 generalizing hs with
  | nil => intro h2; cases h2; exact .nil
  | cons hfg _ ih =>
    intro h2
    cases h2 with
    | cons hgh hrest => exact .cons (SameNames_trans hfg hgh) (ih hrest)

theorem Frame_assign_same_names (f : Frame) (name : String) (v : type)
    (hb : Frame.find f name ≠ none) : SameNames f (Frame.assign f name v) := by
  intro other
  by_cases h : other = name
  · subst h
    rw [Frame_find_assign_same]
    simp [hb]
  · rw [Frame_find_assign_other f name other v h]

theorem Frame_assign_keeps (f : Frame) (name : String) (v : type) (other : String)
    (hb : Frame.find f other ≠ none) : Frame.find (Frame.assign f name v) other ≠ none := by
  by_cases h : other = name
  · subst h
    rw [Frame_find_assign_same]
    simp
  · rw [Frame_find_assign_other f name other v h]
    exact hb

theorem assign_scopes_same_names (fs : List Frame) (name : String) (v : type) :
    List.Forall₂ SameNames fs (assign_scopes fs name v) := by
  induction fs with
  | nil => exact .nil
  | cons f rest ih =>
    rw [assign_scopes]
    refine .cons ?_ ih
    split
    · rename_i hc
      exact Frame_assign_same_names f name v ((Frame_count_ne_zero f name).1 hc)
    · exact SameNames_refl f

theorem NamesKept_of_same : ∀ {fs gs : List Frame},
    List.Forall₂ SameNames fs gs → NamesKept fs gs := by
  intro fs gs h
  cases h with
  | nil => exact trivial
  | cons hfg hrest =>
    exact ⟨fun name hb hc => hb ((hfg name).2 hc), hrest⟩

theorem NamesKept_refl (fs : List Frame) : NamesKept fs fs :=
  NamesKept_of_same (SameNames_all_refl fs)

theorem NamesKept_trans : ∀ {fs gs hs : List Frame},
    NamesKept fs gs → NamesKept gs hs → NamesKept fs hs := by
  intro fs gs hs h1 h2
  match fs, gs, hs, h1, h2 with
  | [], [], [], _, _ => exact trivial
  | _ :: _, _ :: _, _ :: _, ⟨a1, b1⟩, ⟨a2, b2⟩ =>
    exact ⟨fun name hb => a2 name (a1 name hb), SameNames_all_trans b1 b2⟩

theorem print_loop_names {ev : expression → State → Res}
    (hev : ∀ e s v s2, ev e s = .ok v s2 → NamesKept s.ctx.variables_ s2.ctx.variables_) :
    ∀ (es : List expression) (s : State) (v : type) (s2 : State),
      print_loop ev es s = .ok v s2 → NamesKept s.ctx.variables_ s2.ctx.variables_ := by
  intro es
  induction es with
  | nil =>
    intro s v s2 h
    simp only [print_loop, Res.ok.injEq] at h
    rw [← h.2]
    exact NamesKept_refl _
  | cons e rest ih =>
    intro s v s2 h
    simp only [print_loop, Res_bind_eq_ok] at h
    obtain ⟨v1, s1, h1, h2⟩ := h
    exact NamesKept_trans (hev _ _ _ _ h1) (ih { s1 with cout := s1.cout ++ v1.repr } _ _ h2)

theorem expr_list_loop_names {ev : expression → State → Res}
    (hev : ∀ e s v s2, ev e s = .ok v s2 → NamesKept s.ctx.variables_ s2.ctx.variables_) :
    ∀ (es : List expression) (last : type) (s : State) (v : type) (s2 : State),
      expr_list_loop ev es last s = .ok v s2 →
        NamesKept s.ctx.variables_ s2.ctx.variables_ := by
  intro es
  induction es with
  | nil =>
    intro last s v s2 h
    simp only [expr_list_loop, Res.ok.injEq] at h
    rw [← h.2]
    exact NamesKept_refl _
  | cons e rest ih =>
    intro last s v s2 h
    simp only [expr_list_loop, Res_bind_eq_ok] at h
    obtain ⟨v1, s1, h1, h2⟩ := h
    exact NamesKept_trans (hev _ _ _ _ h1) (ih _ _ _ _ h2)

/-- A call of `value` that returns keeps the names of every scope but the
innermost one, which may only gain names. -/
theorem value_names : ∀ (fuel : Nat) (e : expression) (s : State) (v : type) (s2 : State),
    value fuel e s = .ok v s2 → NamesKept s.ctx.variables_ s2.ctx.variables_ := by
  intro fuel
  induction fuel with
  | zero => intro e s v s2 h; simp [value] at h
  | succ n ih =>
    intro e s v s2 h
    cases e with
    | literal w => simp [value] at h; rw [← h.2]; exact NamesKept_refl _
    | print_function exprs =>
      simp only [value, Res_bind_eq_ok] at h
      obtain ⟨v1, s1, h1, h2⟩ := h
      cases h2
      show NamesKept s.ctx.variables_ s1.ctx.variables_
      exact print_loop_names ih _ _ _ _ h1
    | function_call name args => simp [value] at h; rw [← h.2]; exact NamesKept_refl _
    | tostr_function arg =>
      simp only [value, Res_bind_eq_ok] at h
      obtain ⟨v1, s1, h1, h2⟩ := h
      cases h2
      exact ih _ _ _ _ h1
    | toint_function arg =>
      simp only [value, Res_bind_eq_ok] at h
      obtain ⟨v1, s1, h1, h2⟩ := h
      rw [toint_convert_ok h2]
      exact ih _ _ _ _ h1
    | if_expression cond then_ otherwise =>
      simp only [value, Res_bind_eq_ok] at h
      obtain ⟨c, s1, h1, h2⟩ := h
      refine NamesKept_trans (ih _ _ _ _ h1) ?_
      split at h2
      · exact ih _ _ _ _ h2
      · cases otherwise with
        | none => cases h2; exact NamesKept_refl _
        | some e => exact ih _ _ _ _ h2
    | until_statement cond body =>
      simp only [value, Res_bind_eq_ok] at h
      obtain ⟨c, s1, h1, h2⟩ := h
      refine NamesKept_trans (ih _ _ _ _ h1) ?_
      split at h2
      · rw [Res_bind_eq_ok] at h2
        obtain ⟨b, s3, h3, h4⟩ := h2
        exact NamesKept_trans (ih _ _ _ _ h3) (ih _ _ _ _ h4)
      · cases h2; exact NamesKept_refl _
    | var_decl var_name expr =>
      simp only [value, Res_bind_eq_ok] at h
      obtain ⟨v1, s1, h1, h2⟩ := h
      refine NamesKept_trans (ih _ _ _ _ h1) ?_
      have hctx : ∀ w : State, w.ctx = s1.ctx →
          (match w.ctx.set_local_variable var_name v1 with
            | none => Res.undefined
            | some ctx => Res.ok v1 { w with ctx := ctx }) = .ok v s2 →
          NamesKept s1.ctx.variables_ s2.ctx.variables_ := by
        intro w hw hres
        rw [hw] at hres
        cases hv : s1.ctx.variables_ with
        | nil => simp [context.set_local_variable, hv] at hres
        | cons top rest =>
          simp only [context.set_local_variable, hv, Res.ok.injEq] at hres
          rw [← hres.2]
          exact ⟨fun name hb => Frame_assign_keeps top var_name v1 name hb,
            SameNames_all_refl rest⟩
      cases hg : s1.ctx.get_variable var_name with
      | none => rw [hg] at h2; exact hctx s1 rfl h2
      | some w =>
        rw [hg] at h2
        exact hctx (__warning ("redeclaration of variable \"" ++ var_name ++ "\"") s1) rfl h2
    | essignment_expression var_name expr =>
      simp only [value, Res_bind_eq_ok] at h
      obtain ⟨v1, s1, h1, h2⟩ := h
      refine NamesKept_trans (ih _ _ _ _ h1) ?_
      split at h2
      · simp [__error] at h2
      · cases h2
        exact NamesKept_of_same (assign_scopes_same_names _ _ _)
    | «variable» name =>
      simp only [value] at h
      split at h
      · simp [__error] at h
      · cases h; exact NamesKept_refl _
    | expr_list exprs =>
      simp only [value, Res_bind_eq_ok] at h
      obtain ⟨v1, s1, h1, h2⟩ := h
      have hk := expr_list_loop_names ih _ _ _ _ _ h1
      cases hv : s1.ctx.variables_ with
      | nil => simp [context.pop_scope, hv] at h2
      | cons top rest =>
        simp only [context.pop_scope, hv, Res.ok.injEq] at h2
        rw [← h2.2]
        rw [hv] at hk
        exact NamesKept_of_same hk.2
    | builtin_binop_function op fst snd =>
      simp only [value, Res_bind_eq_ok] at h
      obtain ⟨a, s1, h1, b, s3, h3, h4⟩ := h
      rw [(builtin_binop_dispatch_ok h4).1]
      exact NamesKept_trans (ih _ _ _ _ h1) (ih _ _ _ _ h3)

/-- A block that returns leaves every scope with the names it had. -/
theorem expr_list_same_names {exprs : List expression} {s s2 : State} {v : type}
    (h : Evals (.expr_list exprs) s (.ok v s2)) :
    List.Forall₂ SameNames s.ctx.variables_ s2.ctx.variables_ := by
  obtain ⟨fuel, hf, _⟩ := h
  cases fuel with
  | zero => simp [value] at hf
  | succ n =>
    simp only [value, Res_bind_eq_ok] at hf
    obtain ⟨v1, s1, h1, h2⟩ := hf
    have hk := expr_list_loop_names (value_names n) _ _ _ _ _ h1
    cases hv : s1.ctx.variables_ with
    | nil => simp [context.pop_scope, hv] at h2
    | cons top rest =>
      simp only [context.pop_scope, hv, Res.ok.injEq] at h2
      rw [← h2.2]
      rw [hv] at hk
      exact hk.2

theorem get_scopes_none_of_same : ∀ {fs gs : List Frame} (name : String),
    List.Forall₂ SameNames fs gs → get_scopes fs name = none → get_scopes gs name = none := by
  intro fs gs name h
  induction h with
  | nil => exact id
  | @cons f g fs gs hfg _ ih =>
    intro hn
    rw [get_scopes_eq_none] at hn ⊢
    intro scope hs
    rcases List.mem_cons.1 hs with rfl | hs
    · exact (hfg name).1 (hn f (by simp))
    · exact (get_scopes_eq_none _ _).1
        (ih ((get_scopes_eq_none _ _).2 (fun x hx => hn x (by simp [hx])))) scope hs

/-- C18 (block-local declarations do not leak). When a block returns, every
scope that existed before it binds exactly the same names afterwards as
before, so a name that no scope bound before the block is not found after it:
`get_variable` gives the null pointer and a reference to the name is a fatal
error. The names `y`, declared in a conditional branch, and `z`, declared in a
loop body, inside the block `leak_inner`, are both undefined after it. -/
theorem C18_block_local :
    (∀ (exprs : List expression) (s : State) (v : type) (s2 : State),
      Evals (.expr_list exprs) s (.ok v s2) →
        List.Forall₂ SameNames s.ctx.variables_ s2.ctx.variables_ ∧
        ∀ name : String, s.ctx.get_variable name = none →
          s2.ctx.get_variable name = none ∧
          ∃ msg s3, Evals (.variable name) s2 (.fatal msg s3)) ∧
    Evals (leak_probe "y") start
      (.fatal "usage of undefined symbol \"y\""
        ⟨⟨[[], []]⟩, "", "Error: usage of undefined symbol \"y\"\n"⟩) ∧
    Evals (leak_probe "z") start
      (.fatal "usage of undefined symbol \"z\""
        ⟨⟨[[], []]⟩, "", "Error: usage of undefined symbol \"z\"\n"⟩) := by
  refine ⟨fun exprs s v s2 h => ⟨expr_list_same_names h, fun name hn => ?_⟩,
    ⟨7, by rfl, by simp⟩, ⟨7, by rfl, by simp⟩⟩
  have hg : s2.ctx.get_variable name = none :=
    get_scopes_none_of_same name (expr_list_same_names h) hn
  refine ⟨hg, "usage of undefined symbol \"" ++ name ++ "\"",
    { s2 with cerr := s2.cerr ++ "Error: " ++
      ("usage of undefined symbol \"" ++ name ++ "\"") ++ "\n" }, 1, ?_, by simp⟩
  simp only [value, hg]
  rfl

/-- Witness of C18: the block `leak_inner` returns from the start state, and
the one scope of the start state binds the same names, none, afterwards. -/
theorem C18_block_local_witness :
    Evals leak_inner start (.ok UNIT__ start) ∧
      List.Forall₂ SameNames start.ctx.variables_ start.ctx.variables_ ∧
      start.ctx.get_variable "z" = none :=
  have h := C18_block_local.1 leak_items start UNIT__ start ⟨6, by rfl, by simp⟩
  ⟨⟨6, by rfl, by simp⟩, h.1, (h.2 "z" rfl).1⟩

/-! ## Termination -/

theorem Res_bind_terminates {r : Res} {k : type → State → Res} (hr : r ≠ .timeout)
    (hk : ∀ v s, k v s ≠ .timeout) : r.bind k ≠ .timeout := by
  cases r with
  | ok v s => exact hk v s
  | fatal msg s => simp [Res.bind]
  | undefined => simp [Res.bind]
  | timeout => exact absurd rfl hr

theorem has_until_list_false : ∀ {es : List expression},
    has_until_list es = false → ∀ e ∈ es, has_until e = false := by
  intro es
  induction es with
  | nil => intro _ e he; cases he
  | cons x rest ih =>
    intro h e he
    simp only [has_until_list, Bool.or_eq_false_iff] at h
    rcases List.mem_cons.1 he with rfl | he
    · exact h.1
    · exact ih h.2 e he

theorem nesting_le_list : ∀ {es : List expression} (e : expression),
    e ∈ es → nesting e ≤ nesting_list es := by
  intro es
  induction es with
  | nil => intro e he; cases he
  | cons x rest ih =>
    intro e he
    simp only [nesting_list]
    rcases List.mem_cons.1 he with rfl | he
    · exact le_max_left _ _
    · exact le_trans (ih e he) (le_max_right _ _)

theorem print_loop_terminates {ev : expression → State → Res} :
    ∀ (es : List expression), (∀ e ∈ es, ∀ s, ev e s ≠ .timeout) →
      ∀ s, print_loop ev es s ≠ .timeout := by
  intro es
  induction es with
  | nil => intro _ s; simp [print_loop]
  | cons e rest ih =>
    intro h s
    simp only [print_loop]
    exact Res_bind_terminates (h e (by simp) s)
      (fun v s1 => ih (fun x hx => h x (by simp [hx])) _)

theorem expr_list_loop_terminates {ev : expression → State → Res} :
    ∀ (es : List expression), (∀ e ∈ es, ∀ s, ev e s ≠ .timeout) →
      ∀ last s, expr_list_loop ev es last s ≠ .timeout := by
  intro es
  induction es with
  | nil => intro _ last s; simp [expr_list_loop]
  | cons e rest ih =>
    intro h last s
    simp only [expr_list_loop]
    exact Res_bind_terminates (h e (by simp) s)
      (fun v s1 => ih (fun x hx => h x (by simp [hx])) _ _)

theorem toint_convert_terminates (v : type) (s : State) : toint_convert v s ≠ .timeout := by
  unfold toint_convert
  cases v with
  | unit_type => simp
  | integer_type d => simp
  | string_type t => dsimp only; split <;> simp [__error]

theorem builtin_binop_dispatch_terminates (op : builtin_binop_kind) (a b : type) (s : State) :
    builtin_binop_dispatch op a b s ≠ .timeout := by
  unfold builtin_binop_dispatch
  dsimp only
  split
  · split <;> simp [__error]
  · split
    · split <;> simp [__error]
    · split <;> simp [__error]

/-- With fuel above its nesting depth, a tree without a loop node does not run
out of fuel. -/
theorem value_terminates : ∀ (fuel : Nat) (e : expression),
    has_until e = false → nesting e < fuel → ∀ s, value fuel e s ≠ .timeout := by
  intro fuel
  induction fuel with
  | zero => intro e _ h; exact absurd h (Nat.not_lt_zero _)
  | succ n ih =>
    intro e hu hn s
    cases e with
    | literal w => simp [value]
    | print_function exprs =>
      simp only [has_until] at hu
      simp only [nesting] at hn
      rw [value]
      refine Res_bind_terminates (print_loop_terminates exprs (fun e he => ?_) s)
        (fun _ _ => by simp)
      exact ih e (has_until_list_false hu e he)
        (lt_of_le_of_lt (nesting_le_list e he) (Nat.lt_of_succ_lt_succ hn))
    | function_call name args => simp [value]
    | tostr_function arg =>
      simp only [has_until] at hu
      simp only [nesting] at hn
      rw [value]
      exact Res_bind_terminates (ih arg hu (Nat.lt_of_succ_lt_succ hn) s) (fun _ _ => by simp)
    | toint_function arg =>
      simp only [has_until] at hu
      simp only [nesting] at hn
      rw [value]
      exact Res_bind_terminates (ih arg hu (Nat.lt_of_succ_lt_succ hn) s)
        (fun v s1 => toint_convert_terminates v s1)
    | if_expression cond then_ otherwise =>
      simp only [has_until, Bool.or_eq_false_iff] at hu
      simp only [nesting] at hn
      have hn2 := Nat.lt_of_succ_lt_succ hn
      rw [value]
      refine Res_bind_terminates
        (ih cond hu.1.1 (lt_of_le_of_lt (le_max_left _ _) hn2) s) (fun c s1 => ?_)
      split
      · exact ih then_ hu.1.2
          (lt_of_le_of_lt (le_trans (le_max_left _ _) (le_max_right _ _)) hn2) s1
      · cases otherwise with
        | none => simp
        | some e =>
          exact ih e hu.2
            (lt_of_le_of_lt (le_trans (le_max_right _ _) (le_max_right _ _)) hn2) s1
    | until_statement cond body => simp [has_until] at hu
    | var_decl var_name expr =>
      simp only [has_until] at hu
      simp only [nesting] at hn
      rw [value]
      refine Res_bind_terminates (ih expr hu (Nat.lt_of_succ_lt_succ hn) s) (fun v s1 => ?_)
      dsimp only
      split <;> simp
    | essignment_expression var_name expr =>
      simp only [has_until] at hu
      simp only [nesting] at hn
      rw [value]
      refine Res_bind_terminates (ih expr hu (Nat.lt_of_succ_lt_succ hn) s) (fun v s1 => ?_)
      split <;> simp [__error]
    | «variable» name =>
      rw [value]
      split <;> simp [__error]
    | expr_list exprs =>
      simp only [has_until] at hu
      simp only [nesting] at hn
      rw [value]
      refine Res_bind_terminates (expr_list_loop_terminates exprs (fun e he => ?_) _ _)
        (fun v s1 => ?_)
      · exact ih e (has_until_list_false hu e he)
          (lt_of_le_of_lt (nesting_le_list e he) (Nat.lt_of_succ_lt_succ hn))
      · split <;> simp
    | builtin_binop_function op fst snd =>
      simp only [has_until, Bool.or_eq_false_iff] at hu
      simp only [nesting] at hn
      have hn2 := Nat.lt_of_succ_lt_succ hn
      rw [value]
      refine Res_bind_terminates
        (ih fst hu.1 (lt_of_le_of_lt (le_max_left _ _) hn2) s) (fun a s1 => ?_)
      exact Res_bind_terminates
        (ih snd hu.2 (lt_of_le_of_lt (le_max_right _ _) hn2) s1)
        (fun b s2 => builtin_binop_dispatch_terminates op a b s2)

theorem forever_timeout : ∀ (fuel : Nat) (s : State), value fuel forever s = .timeout := by
  intro fuel
  induction fuel with
  | zero => intro s; rfl
  | succ n ih =>
    intro s
    cases n with
    | zero => rfl
    | succ m =>
      have h := ih s
      rw [forever, value] at h ⊢
      simp only [int_lit, value, Res.bind, type.to_integer_type] at h ⊢
      simp only [show (1 : Int) > 0 by decide, if_true] at h ⊢
      cases m with
      | zero => rfl
      | succ k =>
        simp only [value, Res.bind] at h ⊢
        exact ih s

/-- C19, the claim as stated fails. The program `1 / 0` contains no loop node
and the start state has one scope, yet the evaluation neither returns a value
nor stops at a fatal error: the integer division by zero is left undefined. -/
theorem C19_termination_counterexample :
    has_until one_div_zero = false ∧ 1 ≤ start.depth ∧
    Evals one_div_zero start .undefined ∧
    (¬ ∃ v s2, Evals one_div_zero start (.ok v s2)) ∧
    (¬ ∃ msg s2, Evals one_div_zero start (.fatal msg s2)) := by
  have h : Evals one_div_zero start .undefined := ⟨2, by rfl, by simp⟩
  refine ⟨by decide, by decide, h, ?_, ?_⟩
  · rintro ⟨v, s2, h2⟩
    exact absurd (Evals_unique h h2) (by simp)
  · rintro ⟨msg, s2, h2⟩
    exact absurd (Evals_unique h h2) (by simp)

/-- C19 as amended. The evaluation of a tree without a loop node, from a state
with at least one scope, terminates, with fuel one above the nesting depth of
the tree: it returns a value, stops at a fatal error, or stops at an operation
the code leaves undefined. A loop node can run forever: `until (1) T` has no
result from any state. -/
theorem C19_termination_without_loops :
    (∀ (e : expression) (s : State), has_until e = false → 1 ≤ s.depth →
      ∃ r, Evals e s r ∧ value (nesting e + 1) e s = r ∧
        ((∃ v s2, r = .ok v s2) ∨ (∃ msg s2, r = .fatal msg s2) ∨ r = .undefined)) ∧
    has_until forever = true ∧
    (∀ (s : State) (r : Res), ¬ Evals forever s r) := by
  refine ⟨fun e s hu _ => ?_, by decide, ?_⟩
  · have ht := value_terminates (nesting e + 1) e hu (Nat.lt_succ_self _) s
    refine ⟨_, ⟨nesting e + 1, rfl, ht⟩, rfl, ?_⟩
    cases hr : value (nesting e + 1) e s with
    | ok v s2 => exact Or.inl ⟨v, s2, rfl⟩
    | fatal msg s2 => exact Or.inr (Or.inl ⟨msg, s2, rfl⟩)
    | undefined => exact Or.inr (Or.inr rfl)
    | timeout => exact absurd hr ht
  · rintro s r ⟨fuel, h, hr⟩
    rw [forever_timeout] at h
    exact hr h.symm

/-- Witness of C19: the block `1; 2; 3` has no loop node and the start state
has one scope; the evaluation returns. -/
theorem C19_termination_without_loops_witness :
    has_until one_two_three = false ∧ 1 ≤ start.depth ∧
      ∃ r, Evals one_two_three start r ∧ value (nesting one_two_three + 1) one_two_three start = r ∧
        ((∃ v s2, r = .ok v s2) ∨ (∃ msg s2, r = .fatal msg s2) ∨ r = .undefined) :=
  ⟨by decide, by decide,
    C19_termination_without_loops.1 one_two_three start (by decide) (by decide)⟩

/-! ## Round trip through text -/

theorem digitChar_digit : ∀ k : Nat, k < 10 →
    isdigit (Nat.digitChar k) = true ∧ (Nat.digitChar k).toNat - '0'.toNat = k := by
  decide

theorem digits_value_append (xs : List Char) (d : Char) :
    digits_value (xs ++ [d]) = digits_value xs * 10 + (d.toNat - '0'.toNat) := by
  simp [digits_value, List.foldl_append]

/-- The digits that `Nat.toDigitsCore` puts in front of `ds`, with enough
fuel, are decimal digits, at least one, and their value is `n`. -/
theorem toDigitsCore_digits : ∀ (fuel n : Nat) (ds : List Char), n < fuel →
    ∃ xs, Nat.toDigitsCore 10 fuel n ds = xs ++ ds ∧ xs ≠ [] ∧
      (∀ c ∈ xs, isdigit c = true) ∧ digits_value xs = n := by
  intro fuel
  induction fuel with
  | zero => intro n ds h; exact absurd h (Nat.not_lt_zero _)
  | succ f ih =>
    intro n ds hn
    have hd := digitChar_digit (n % 10) (Nat.mod_lt _ (by decide))
    rw [Nat.toDigitsCore]
    split
    · rename_i h0
      refine ⟨[Nat.digitChar (n % 10)], rfl, by simp, ?_, ?_⟩
      · intro c hc
        rw [List.mem_singleton.1 hc]
        exact hd.1
      · simp only [digits_value, List.foldl, hd.2]
        omega
    · rename_i h0
      obtain ⟨xs, h1, _, h3, h4⟩ := ih (n / 10) (Nat.digitChar (n % 10) :: ds) (by omega)
      refine ⟨xs ++ [Nat.digitChar (n % 10)], ?_, by simp, ?_, ?_⟩
      · rw [h1]; simp
      · intro c hc
        rcases List.mem_append.1 hc with hc | hc
        · exact h3 c hc
        · rw [List.mem_singleton.1 hc]; exact hd.1
      · rw [digits_value_append, h4, hd.2]
        omega

theorem repr_digits (m : Nat) :
    (Nat.repr m).data ≠ [] ∧ (∀ c ∈ (Nat.repr m).data, isdigit c = true) ∧
      digits_value (Nat.repr m).data = m := by
  obtain ⟨xs, h1, h2, h3, h4⟩ := toDigitsCore_digits (m + 1) m [] (Nat.lt_succ_self m)
  have hdata : (Nat.repr m).data = xs := by
    simp only [Nat.repr, Nat.toDigits, h1, List.append_nil, List.asString]
  rw [hdata]
  exact ⟨h2, h3, h4⟩

/-- The text that `repr()` gives for an integer is an optional minus sign and
the decimal digits of its absolute value. -/
theorem integer_repr_prefix (n : Int) :
    ∃ sign ds, IntegerPrefix (type.integer_type n).repr [] sign ds [] ∧
      signed_value sign ds = n := by
  cases n with
  | ofNat m =>
    obtain ⟨h1, h2, h3⟩ := repr_digits m
    refine ⟨[], (Nat.repr m).data, ⟨?_, by simp, Or.inl rfl, h1, h2, by simp⟩, ?_⟩
    · show (toString (Int.ofNat m)).data = _
      simp only [List.append_nil, List.nil_append]
      rfl
    · simp [signed_value, h3]
  | negSucc m =>
    obtain ⟨h1, h2, h3⟩ := repr_digits (m + 1)
    refine ⟨['-'], (Nat.repr (m + 1)).data,
      ⟨?_, by simp, Or.inr (Or.inr rfl), h1, h2, by simp⟩, ?_⟩
    · show (toString (Int.negSucc m)).data = _
      simp only [List.append_nil, List.nil_append]
      show ("-" ++ Nat.repr (m + 1)).data = _
      rw [String.data_append]
    · simp only [signed_value, h3, if_true]
      rfl

theorem tostr_evals {arg : expression} {s s1 : State} {v : type}
    (he : Evals arg s (.ok v s1)) :
    Evals (.tostr_function arg) s (.ok (.string_type v.repr) s1) := by
  rw [Evals_after he _ (fun _ v s1 => .ok (.string_type v.repr) s1)
    (fun fuel => by rw [value]) (fun _ _ => rfl)]
  exact ⟨0, rfl, by simp⟩


/-- C20 (conversion round trip). For every integer `n` in the signed 32-bit
range, to-integer applied to to-text applied to an argument that evaluates to
`n` returns `n`, with no fatal error and no change of state beyond the
argument's own; in particular for the literal `n`. To-integer of an integer is
that integer and to-integer of unit is the integer 0. -/
theorem C20_conversion_round_trip :
    (∀ (arg : expression) (s s1 : State) (n : Int), inInt32 n →
      Evals arg s (.ok (.integer_type n) s1) →
        Evals (.toint_function (.tostr_function arg)) s (.ok (.integer_type n) s1)) ∧
    (∀ (n : Int) (s : State), inInt32 n →
      Evals (.toint_function (.tostr_function (int_lit n))) s (.ok (.integer_type n) s)) ∧
    (∀ (n : Int) (s : State),
      toint_convert (.integer_type n) s = .ok (.integer_type n) s ∧
      Evals (.toint_function (int_lit n)) s (.ok (.integer_type n) s)) ∧
    (∀ s : State,
      toint_convert UNIT__ s = .ok (.integer_type 0) s ∧
      Evals (.toint_function (.literal UNIT__)) s (.ok (.integer_type 0) s)) := by
  have hround : ∀ (arg : expression) (s s1 : State) (n : Int), inInt32 n →
      Evals arg s (.ok (.integer_type n) s1) →
        Evals (.toint_function (.tostr_function arg)) s (.ok (.integer_type n) s1) := by
    intro arg s s1 n hn he
    have h := toint_evals (tostr_evals he)
    obtain ⟨sign, ds, hp, hv⟩ := integer_repr_prefix n
    rw [toint_convert_string, stoi_of_prefix hp, hv, if_pos hn] at h
    exact h
  refine ⟨hround, fun n s hn => hround _ s s n hn ⟨1, rfl, by simp⟩,
    fun n s => ⟨rfl, ⟨2, rfl, by simp⟩⟩, fun s => ⟨rfl, ⟨2, rfl, by simp⟩⟩⟩

/-- Witness of C20: the integer -2147483648, the least of the 32-bit range,
comes back from the round trip. -/
theorem C20_conversion_round_trip_witness :
    inInt32 (-2147483648) ∧
      Evals (.toint_function (.tostr_function (int_lit (-2147483648)))) start
        (.ok (.integer_type (-2147483648)) start) :=
  ⟨by decide, C20_conversion_round_trip.2.1 (-2147483648) start (by decide)⟩

end mlang
